import Mathlib

/-!
# Plant-FATE: climate forcing, community means and patch clearing

A shallow embedding of `src/include/climate.h` (classes `env::Clim` and
`env::Climate`) and of the driver `src/tests/fmu_multispecies.cpp` (class `CWM`
and the patch-clearing branch of `main`).

Conventions of the embedding.

* A C++ `double` is a rational number and arithmetic on it is exact; an `int`
  is an integer.
* An input file is the list of its lines together with one bit saying whether
  the last line is ended by a newline.  A line is kept as the six values the
  conversions `as<int>` / `as<double>` produce from its first six cells.
* `std::ifstream` is embedded with its file position (counted in lines) and its
  `eofbit` and `failbit`, because `readNextLine_met` branches on `eof()`.
* When `std::getline` delivers nothing, `line` is the empty string, every
  `as<T>(cell)` returns its local `data` without having assigned it, and the
  values are indeterminate.  They are a parameter `indet` of the embedding.
* The `while` loop of `updateClimate` need not terminate; it is embedded with a
  bound on the number of iterations, and `none` says the bound was reached.
-/

set_option autoImplicit false

namespace env

/-- The class `Clim` with its default member initialisers. -/
structure Clim where
  tc : ℚ := 25
  ppfd : ℚ := 600
  vpd : ℚ := 1000
  co2 : ℚ := 400
  swp : ℚ := -1
  deriving DecidableEq

/-- One line of a forcing file, as `readNextLine_met` converts its first six
cells: `year,month,tc,vpd,ppfd,swp`. -/
structure Row where
  year : Int
  month : Int
  tc : ℚ
  vpd : ℚ
  ppfd : ℚ
  swp : ℚ
  deriving DecidableEq

/-- A text file: its lines (the header line first) and whether the last line
ends with a newline character. -/
structure CsvFile where
  lines : List Row
  lastLineTerminated : Bool
  deriving DecidableEq

/-- The part of `std::ifstream` the class uses: the file it is associated with
(`none` while it is not open), the index of the next line to be read, and the
two state bits. -/
structure IfStream where
  file : Option CsvFile := none
  pos : Nat := 0
  eofbit : Bool := false
  failbit : Bool := false
  deriving DecidableEq

namespace IfStream

/-- The member `open`: fails (sets `failbit`) when the stream is already open
or the file cannot be opened, and otherwise clears the state bits. -/
def «open» (s : IfStream) (target : Option CsvFile) : IfStream :=
  match s.file, target with
  | none, some f => { file := some f, pos := 0, eofbit := false, failbit := false }
  | _, _ => { s with failbit := true }

/-- The member `fail()`, which is also what `!stream` tests. -/
def fail (s : IfStream) : Bool := s.failbit

/-- The member `eof()`. -/
def eof (s : IfStream) : Bool := s.eofbit

/-- The member `clear()`. -/
def clear (s : IfStream) : IfStream := { s with eofbit := false, failbit := false }

/-- The call `seekg(0)`: clears `eofbit`; does nothing more when `fail()`;
otherwise goes back to the first line, which fails when no file is open. -/
def seekg0 (s : IfStream) : IfStream :=
  let s1 := { s with eofbit := false }
  if s1.failbit then s1
  else match s1.file with
    | some _ => { s1 with pos := 0 }
    | none => { s1 with failbit := true }

/-- The call `std::getline(stream, line)` on a `line` that is empty before the
call.  The second component is the line read, `none` for the empty string.
A stream that is not good only gets `failbit`.  Reading the last line of a file
that does not end with a newline sets `eofbit`; reading at the end of the file
(or from a stream without a file) sets `eofbit` and `failbit`. -/
def getline (s : IfStream) : IfStream × Option Row :=
  if s.eofbit || s.failbit then ({ s with failbit := true }, none)
  else match s.file with
    | none => ({ s with eofbit := true, failbit := true }, none)
    | some f =>
      match f.lines[s.pos]? with
      | some r =>
        ({ s with pos := s.pos + 1,
                  eofbit := (s.pos + 1 == f.lines.length) && !f.lastLineTerminated }, some r)
      | none => ({ s with eofbit := true, failbit := true }, none)

end IfStream

/-- The class `Climate`: its data members that the member functions read or
write.  `t_now` has no initialiser in the source. -/
structure Climate where
  t_prev : ℚ := 0
  t_next : ℚ := 0
  clim_prev : Clim := {}
  clim_next : Clim := {}
  t_base : ℚ := 2000
  t_now : ℚ
  clim : Clim := {}
  interpolate : Bool := false
  fin_met : IfStream := {}
  fin_co2 : IfStream := {}
  deriving DecidableEq

namespace Climate

/-- The member `interp`. -/
def interp (clim_prev _clim_next : Clim) : Clim := clim_prev

/-- The member `readNextLine_met`.  The cells are taken from the line that the
first `getline` delivered, also when the stream was rewound afterwards. -/
def readNextLine_met (indet : Row) (c : Climate) : Climate :=
  let g := c.fin_met.getline
  let line := g.2
  let c1 : Climate :=
    if g.1.eof then
      { c with fin_met := (g.1.clear.seekg0).getline.1, t_base := c.t_next }
    else { c with fin_met := g.1 }
  let r := line.getD indet
  { c1 with
    clim_next := { c1.clim_next with tc := r.tc, vpd := r.vpd, ppfd := r.ppfd, swp := r.swp },
    t_next := (r.year : ℚ) - c1.t_base + ((r.month - 1 : Int) : ℚ) / 12 }

/-- The member `init`, given what opening `metFile` and `co2File` yields
(`none` when the file cannot be opened).  Returns the error code and the
state. -/
def init (indet : Row) (met co2 : Option CsvFile) (c : Climate) : Int × Climate :=
  let c1 := { c with fin_met := c.fin_met.open met, fin_co2 := c.fin_co2.open co2 }
  if c1.fin_met.fail then (1, c1)
  else if c1.fin_co2.fail then (1, c1)
  else
    let c2 := { c1 with fin_met := c1.fin_met.getline.1, fin_co2 := c1.fin_co2.getline.1 }
    let c3 := readNextLine_met indet c2
    let c4 := { c3 with t_now := c3.t_next, t_prev := c3.t_next,
                        clim := c3.clim_next, clim_prev := c3.clim_next }
    (0, readNextLine_met indet c4)

/-- The `while (t >= t_next)` loop of `updateClimate`, run for at most `fuel`
iterations; `none` when the loop condition still holds after them. -/
def advance (indet : Row) : Nat → ℚ → Climate → Option Climate
  | 0, t, c => if t ≥ c.t_next then none else some c
  | fuel + 1, t, c =>
    if t ≥ c.t_next then
      advance indet fuel t
        (readNextLine_met indet { c with clim_prev := c.clim_next, t_prev := c.t_next })
    else some c

/-- The body of the `while` loop of `updateClimate`. -/
def loopBody (indet : Row) (c : Climate) : Climate :=
  readNextLine_met indet { c with clim_prev := c.clim_next, t_prev := c.t_next }

/-- The member `updateClimate`. -/
def updateClimate (indet : Row) (fuel : Nat) (t : ℚ) (c : Climate) : Option Climate :=
  if t = c.t_now then some c
  else
    let c1 := if t > c.t_prev ∧ t < c.t_next then
        { c with clim := interp c.clim_prev c.clim_next } else c
    (advance indet fuel t c1).map fun c2 => { c2 with clim := interp c2.clim_prev c2.clim_next }

/-- A sequence of `updateClimate` calls, one for each query time of the list. -/
def updateClimates (indet : Row) (fuel : Nat) : List ℚ → Climate → Option Climate
  | [], c => some c
  | t :: ts, c => (updateClimate indet fuel t c).bind (updateClimates indet fuel ts)

/-- The time `readNextLine_met` assigns to a line when `t_base` is `base`. -/
def rowTimeAt (base : ℚ) (r : Row) : ℚ := (r.year : ℚ) - base + ((r.month - 1 : Int) : ℚ) / 12

/-- The time of a record: the time `readNextLine_met` assigns to its line while
`t_base` has its initial value 2000, that is `(year - 2000) + (month - 1)/12`. -/
def rowTime (r : Row) : ℚ := (r.year : ℚ) - 2000 + ((r.month - 1 : Int) : ℚ) / 12

/-- The four assignments `readNextLine_met` makes to `clim_next` from a line. -/
def withRow (cl : Clim) (r : Row) : Clim :=
  { cl with tc := r.tc, vpd := r.vpd, ppfd := r.ppfd, swp := r.swp }

/-- The last of a non-empty sequence of lines, given as head and tail. -/
def lastRow : Row → List Row → Row
  | b, [] => b
  | _, r :: rest => lastRow r rest

/-- Follows the words of the spec, not the source: the linear interpolation in
time of each of `tc`, `vpd`, `ppfd` and `swp` between the bracketing records,
`clim_prev + (t - t_prev)/(t_next - t_prev) * (clim_next - clim_prev)`. -/
def linearInterp (t t_prev t_next : ℚ) (clim_prev clim_next : Clim) : Clim :=
  { clim_prev with
    tc := clim_prev.tc + (t - t_prev) / (t_next - t_prev) * (clim_next.tc - clim_prev.tc),
    vpd := clim_prev.vpd + (t - t_prev) / (t_next - t_prev) * (clim_next.vpd - clim_prev.vpd),
    ppfd := clim_prev.ppfd + (t - t_prev) / (t_next - t_prev) * (clim_next.ppfd - clim_prev.ppfd),
    swp := clim_prev.swp + (t - t_prev) / (t_next - t_prev) * (clim_next.swp - clim_prev.swp) }

/-- A call of one of the two member functions that change a `Climate`: `init`,
with what opening the two files yields at that moment, or `updateClimate`. -/
inductive Call where
  | init (met co2 : Option CsvFile)
  | updateClimate (t : ℚ)

/-- One call on a state; the error code of `init` is dropped. -/
def call (indet : Row) (fuel : Nat) : Call → Climate → Option Climate
  | Call.init met co2, c => some (init indet met co2 c).2
  | Call.updateClimate t, c => updateClimate indet fuel t c

/-- A sequence of calls of `init` and `updateClimate` in any order. -/
def calls (indet : Row) (fuel : Nat) : List Call → Climate → Option Climate
  | [], c => some c
  | k :: ks, c => (call indet fuel k c).bind (calls indet fuel ks)

/-- The CO2 side of a state: the member `co2` of the three `Clim` objects has
the value `v`, and at most one line of the CO2 file has been read. -/
def co2Kept (v : ℚ) (c : Climate) : Prop :=
  c.clim.co2 = v ∧ c.clim_prev.co2 = v ∧ c.clim_next.co2 = v ∧ c.fin_co2.pos ≤ 1

end Climate

end env

/-! ## The driver `fmu_multispecies.cpp` -/

namespace plant

/-- The members of `PlantTraits` the driver reads. -/
structure PlantTraits where
  lma : ℚ
  wood_density : ℚ
  hmat : ℚ
  p50_xylem : ℚ
  deriving DecidableEq, Inhabited

/-- The member of `PlantParameters` the driver reads. -/
structure PlantParameters where
  lai0 : ℚ
  deriving DecidableEq, Inhabited

/-- The members of the plant's `geometry` the driver reads or writes. -/
structure PlantGeometry where
  lai : ℚ
  diameter : ℚ
  height : ℚ
  crown_area : ℚ
  crootmass : ℚ
  deriving DecidableEq, Inhabited

/-- The member of the plant's `res` that `CWM::update` reads. -/
structure PlantAssimilationResult where
  gs_avg : ℚ
  deriving DecidableEq, Inhabited

end plant

/-- A cohort of `Species<PSPM_Plant>`: the plant, its density weight `u` (what
`getU` reads and `setU` writes) and the value its `get_biomass()` returns. -/
structure PSPM_Plant where
  traits : plant.PlantTraits
  par : plant.PlantParameters
  geometry : plant.PlantGeometry
  res : plant.PlantAssimilationResult
  u : ℚ
  get_biomass : ℚ
  deriving DecidableEq, Inhabited

/-- Modelled from the spec: the class `Species<PSPM_Plant>` of the solver
library is not under `src/`.  A species is the ordered sequence of its cohorts;
`xsize`, `getCohort` and `setU` are the operations the driver calls. -/
structure Species where
  cohorts : List PSPM_Plant
  deriving DecidableEq, Inhabited

namespace Species

/-- Modelled from the spec: the number of cohorts of the species. -/
def xsize (spp : Species) : Nat := spp.cohorts.length

/-- Modelled from the spec: the cohort with index `i`. -/
def getCohort (spp : Species) (i : Nat) : PSPM_Plant := spp.cohorts.getD i default

/-- Modelled from the spec: store a cohort back at index `i` (the driver changes
the cohort through the reference `getCohort` returns). -/
def setCohort (spp : Species) (i : Nat) (p : PSPM_Plant) : Species :=
  { spp with cohorts := spp.cohorts.set i p }

/-- Modelled from the spec: the operation `setU`, which sets the density weight
of the cohort with index `i`. -/
def setU (spp : Species) (i : Nat) (u_new : ℚ) : Species :=
  spp.setCohort i { spp.getCohort i with u := u_new }

end Species

/-- The body of the inner loop of the patch-clearing branch of `main`, for the
cohort index `i`. -/
def clearCohort (spp : Species) (i : Nat) : Species :=
  let p := spp.getCohort i
  let p1 := { p with geometry := { p.geometry with crootmass := 0 } }
  let p2 := { p1 with geometry := { p1.geometry with lai := p1.par.lai0 } }
  let u_new : ℚ := 0
  (spp.setCohort i p2).setU i u_new

/-- The inner loop `for (int i=1; i<spp->xsize(); ++i)` of the branch. -/
def clearSpecies (spp : Species) : Species :=
  (List.range' 1 (spp.xsize - 1)).foldl clearCohort spp

/-- The time to which the branch moves `t_clear`, where `r` is what `rand()`
returns: `t + 100 + 50*(2*double(rand())/RAND_MAX - 1)`. -/
def nextClear (RAND_MAX : Nat) (r : Nat) (t : ℚ) : ℚ :=
  t + 100 + 50 * (2 * (r : ℚ) / (RAND_MAX : ℚ) - 1)

/-- The patch-clearing branch `if (t >= t_clear)` of the time loop of `main`,
on the pair of `t_clear` and the species of the solver; `r` is what `rand()`
returns when the branch calls it.  (`copyCohortsToState` writes the solver's
state vector and leaves the cohorts as they are.) -/
def clearPatch (RAND_MAX : Nat) (r : Nat) (t : ℚ) (st : ℚ × List Species) : ℚ × List Species :=
  if t ≥ st.1 then (nextClear RAND_MAX r t, st.2.map clearSpecies) else st

/-- The solver `S` as `CWM::update` uses it: its species, and the two
integrals over the cohorts of a species, which belong to the solver library and
are left abstract. -/
structure Solver where
  species_vec : List Species
  integrate_x : (Nat → ℚ → ℚ) → ℚ → Nat → ℚ
  integrate_wudx_above : (Nat → ℚ → ℚ) → ℚ → ℚ → Nat → ℚ

namespace Solver

/-- The member `n_species`. -/
def n_species (S : Solver) : Nat := S.species_vec.length

/-- The expression `static_cast<Species<PSPM_Plant>*>(S.species_vec[k])->getCohort(i)`. -/
def cohort (S : Solver) (k i : Nat) : PSPM_Plant := (S.species_vec.getD k default).getCohort i

end Solver

/-- The data members of the class `CWM`. -/
structure CWM where
  n_ind : ℚ
  biomass : ℚ
  ba : ℚ
  canopy_area : ℚ
  height : ℚ
  lma : ℚ
  p50 : ℚ
  hmat : ℚ
  wd : ℚ
  gs : ℚ
  n_ind_vec : List ℚ
  biomass_vec : List ℚ
  ba_vec : List ℚ
  canopy_area_vec : List ℚ
  height_vec : List ℚ
  deriving DecidableEq

namespace CWM

/-- A vector after `clear(); resize(n);` and the loop
`for (int k=0; k<n; ++k) vec[k] = f(k);`. -/
def fillVec (n : Nat) (f : Nat → ℚ) : List ℚ :=
  (List.range n).foldl (fun v k => v.set k (f k)) (List.replicate n 0)

/-- The call `std::accumulate(vec.begin(), vec.end(), 0.0)`. -/
def accumulate (v : List ℚ) : ℚ := v.foldl (fun acc x => acc + x) 0

/-- A scalar after `x = 0;` and the loop `for (int k=0; k<n; ++k) x += f(k);`. -/
def sumLoop (n : Nat) (f : Nat → ℚ) : ℚ :=
  (List.range n).foldl (fun acc k => acc + f k) 0

/-- Follows the words of the spec, not the source: the community mean height,
the integral of cohort height summed over the species and divided by the number
of individuals. -/
def communityMeanHeight (t : ℚ) (S : Solver) : ℚ :=
  ((List.range S.n_species).map fun k =>
      S.integrate_x (fun i _ => (S.cohort k i).geometry.height) t k).sum /
    ((List.range S.n_species).map fun k => S.integrate_x (fun _ _ => 1) t k).sum

/-- The member `update`; `M_PI` is the constant of that name.  The member
`height` is not assigned. -/
def update (M_PI : ℚ) (cw : CWM) (t : ℚ) (S : Solver) : CWM :=
  let n := S.n_species
  let n_ind_vec := fillVec n fun k => S.integrate_x (fun _ _ => 1) t k
  let n_ind := accumulate n_ind_vec
  let biomass_vec := fillVec n fun k => S.integrate_x (fun i _ => (S.cohort k i).get_biomass) t k
  let biomass := accumulate biomass_vec
  let ba_vec := fillVec n fun k =>
    S.integrate_wudx_above
      (fun i _ => M_PI * (S.cohort k i).geometry.diameter * (S.cohort k i).geometry.diameter / 4)
      t (1 / 10) k
  let ba := accumulate ba_vec
  let canopy_area_vec := fillVec n fun k =>
    S.integrate_x (fun i _ => (S.cohort k i).geometry.crown_area) t k
  let canopy_area := accumulate canopy_area_vec
  let height_vec0 := fillVec n fun k =>
    S.integrate_x (fun i _ => (S.cohort k i).geometry.height) t k
  let height_vec := (List.range n).foldl
    (fun v k => v.set k (v.getD k 0 / n_ind_vec.getD k 0)) height_vec0
  let hmat := sumLoop n (fun k => S.integrate_x (fun i _ => (S.cohort k i).traits.hmat) t k) / n_ind
  let lma := sumLoop n (fun k => S.integrate_x (fun i _ => (S.cohort k i).traits.lma) t k) / n_ind
  let wd :=
    sumLoop n (fun k => S.integrate_x (fun i _ => (S.cohort k i).traits.wood_density) t k) / n_ind
  let p50 :=
    sumLoop n (fun k => S.integrate_x (fun i _ => (S.cohort k i).traits.p50_xylem) t k) / n_ind
  let gs := sumLoop n (fun k => S.integrate_x (fun i _ => (S.cohort k i).res.gs_avg) t k) / n_ind
  { cw with
    n_ind := n_ind, biomass := biomass, ba := ba, canopy_area := canopy_area,
    lma := lma, p50 := p50, hmat := hmat, wd := wd, gs := gs,
    n_ind_vec := n_ind_vec, biomass_vec := biomass_vec, ba_vec := ba_vec,
    canopy_area_vec := canopy_area_vec, height_vec := height_vec }

end CWM

/-! ## Inputs used in the examples -/

namespace Example

open env

/-- Indeterminate values taken to be zero. -/
def zero : Row := ⟨0, 0, 0, 0, 0, 0⟩

/-- The conversions of a header line of column names: `as<T>` yields zero on
text that is not a number. -/
def header : Row := ⟨0, 0, 0, 0, 0, 0⟩

def jan : Row := ⟨2000, 1, 10, 100, 200, -1⟩

def feb : Row := ⟨2000, 2, 20, 110, 210, -2⟩

def mar : Row := ⟨2000, 3, 30, 120, 220, -3⟩

/-- A file of three monthly records, the last one followed by a newline. -/
def met3 : CsvFile := ⟨[header, jan, feb, mar], true⟩

/-- The same three records, with no newline after the last one. -/
def met3u : CsvFile := ⟨[header, jan, feb, mar], false⟩

/-- A file of two records with no newline after the last one. -/
def met2u : CsvFile := ⟨[header, jan, feb], false⟩

/-- Two records of the year 5000 with no newline after the last one. -/
def far2u : CsvFile :=
  ⟨[header, ⟨5000, 1, 10, 100, 200, -1⟩, ⟨5000, 2, 20, 110, 210, -2⟩], false⟩

/-- A CO2 file: a header and one line. -/
def co2 : CsvFile := ⟨[header, ⟨2000, 1, 0, 0, 0, 0⟩], true⟩

/-- A `Climate` as its constructor leaves it, `t_now` taken to be zero. -/
def fresh : Climate := { t_now := 0 }

def plantA : PSPM_Plant :=
  { traits := ⟨1, 2, 3, 4⟩, par := ⟨5⟩, geometry := ⟨1, 1, 1, 1, 7⟩, res := ⟨1⟩, u := 9,
    get_biomass := 1 }

def plantB : PSPM_Plant :=
  { traits := ⟨1, 2, 3, 4⟩, par := ⟨6⟩, geometry := ⟨2, 1, 1, 1, 8⟩, res := ⟨1⟩, u := 3,
    get_biomass := 1 }

def spp3 : Species := ⟨[plantA, plantB, plantA]⟩

/-- A `Climate` as its constructor leaves it, with the member `interpolate` set
afterwards. -/
def freshInterp : Climate := { t_now := 0, interpolate := true }

/-- A plant of height 4. -/
def plantC : PSPM_Plant :=
  { traits := ⟨1, 2, 3, 4⟩, par := ⟨5⟩, geometry := ⟨1, 1, 4, 1, 0⟩, res := ⟨1⟩, u := 1,
    get_biomass := 1 }

/-- A plant of height 8. -/
def plantD : PSPM_Plant :=
  { traits := ⟨1, 2, 3, 4⟩, par := ⟨5⟩, geometry := ⟨1, 1, 8, 1, 0⟩, res := ⟨1⟩, u := 1,
    get_biomass := 1 }

/-- A solver with one species of two cohorts, whose integrals add up the values
of the two cohorts with unit weights. -/
def solver2 : Solver :=
  { species_vec := [⟨[plantC, plantD]⟩],
    integrate_x := fun w t _ => w 0 t + w 1 t,
    integrate_wudx_above := fun w t _ _ => w 0 t + w 1 t }

/-- A `CWM` object whose members hold 7 before `update`. -/
def cwm7 : CWM := ⟨7, 7, 7, 7, 7, 7, 7, 7, 7, 7, [], [], [], [], []⟩

/-- A `CWM` object whose members hold 0 before `update`. -/
def cwm0 : CWM := ⟨0, 0, 0, 0, 0, 0, 0, 0, 0, 0, [], [], [], [], []⟩

end Example

namespace env

open Climate

/-! ## The stream -/

theorem getline_mid {f : CsvFile} {p : Nat} {r : Row} (hr : f.lines[p]? = some r)
    (h : p + 1 < f.lines.length ∨ f.lastLineTerminated = true) :
    IfStream.getline ⟨some f, p, false, false⟩ = (⟨some f, p + 1, false, false⟩, some r) := by
  rcases h with h | h
  · simp [IfStream.getline, hr, Nat.ne_of_lt h]
  · simp [IfStream.getline, hr, h]

theorem getline_last {f : CsvFile} {p : Nat} {r : Row} (hr : f.lines[p]? = some r)
    (h1 : p + 1 = f.lines.length) (h2 : f.lastLineTerminated = false) :
    IfStream.getline ⟨some f, p, false, false⟩ = (⟨some f, p + 1, true, false⟩, some r) := by
  simp [IfStream.getline, hr, h1, h2]

theorem getline_end {f : CsvFile} {p : Nat} (h : f.lines.length ≤ p) :
    IfStream.getline ⟨some f, p, false, false⟩ = (⟨some f, p, true, true⟩, none) := by
  have : f.lines[p]? = none := List.getElem?_eq_none h
  simp [IfStream.getline, this]

/-! ## One call of `readNextLine_met` -/

theorem rowTimeAt_2000 (r : Row) : rowTimeAt 2000 r = rowTime r := rfl

theorem rowTimeAt_eq (base : ℚ) (r : Row) : rowTimeAt base r = rowTime r + 2000 - base := by
  simp only [rowTimeAt, rowTime]
  ring

theorem withRow_withRow (cl : Clim) (a b : Row) : withRow (withRow cl a) b = withRow cl b := rfl

/-- Reading a line that is not the end of the input: the line becomes
`clim_next`, its time is taken with the current `t_base`. -/
theorem readNextLine_met_mid (indet : Row) {f : CsvFile} {p : Nat} {r : Row} (c : Climate)
    (hs : c.fin_met = ⟨some f, p, false, false⟩) (hr : f.lines[p]? = some r)
    (h : p + 1 < f.lines.length ∨ f.lastLineTerminated = true) :
    readNextLine_met indet c =
      { c with
        fin_met := ⟨some f, p + 1, false, false⟩,
        clim_next := withRow c.clim_next r,
        t_next := rowTimeAt c.t_base r } := by
  simp [readNextLine_met, hs, getline_mid hr h, IfStream.eof, withRow, rowTimeAt]

/-- Reading the last line when no newline follows it: the stream is rewound
and `t_base` becomes the old `t_next` before the line is converted. -/
theorem readNextLine_met_last (indet : Row) {f : CsvFile} {p : Nat} {r : Row} (c : Climate)
    (hs : c.fin_met = ⟨some f, p, false, false⟩) (hr : f.lines[p]? = some r)
    (h1 : p + 1 = f.lines.length) (h2 : f.lastLineTerminated = false) :
    readNextLine_met indet c =
      { c with
        fin_met := (IfStream.getline ⟨some f, 0, false, false⟩).1,
        t_base := c.t_next,
        clim_next := withRow c.clim_next r,
        t_next := rowTimeAt c.t_next r } := by
  simp [readNextLine_met, hs, getline_last hr h1 h2, IfStream.eof, IfStream.clear,
    IfStream.seekg0, withRow, rowTimeAt]

/-- Reading at the end of the input: the stream is rewound, `t_base` becomes the
old `t_next`, and the values converted are the indeterminate ones. -/
theorem readNextLine_met_end (indet : Row) {f : CsvFile} {p : Nat} (c : Climate)
    (hs : c.fin_met = ⟨some f, p, false, false⟩) (h : f.lines.length ≤ p) :
    readNextLine_met indet c =
      { c with
        fin_met := (IfStream.getline ⟨some f, 0, false, false⟩).1,
        t_base := c.t_next,
        clim_next := withRow c.clim_next indet,
        t_next := rowTimeAt c.t_next indet } := by
  simp [readNextLine_met, hs, getline_end h, IfStream.eof, IfStream.clear, IfStream.seekg0,
    withRow, rowTimeAt]

theorem readNextLine_met_t_prev (indet : Row) (c : Climate) :
    (readNextLine_met indet c).t_prev = c.t_prev := by
  by_cases h : (IfStream.getline c.fin_met).1.eof = true <;> simp [readNextLine_met, h]

theorem readNextLine_met_t_now (indet : Row) (c : Climate) :
    (readNextLine_met indet c).t_now = c.t_now := by
  by_cases h : (IfStream.getline c.fin_met).1.eof = true <;> simp [readNextLine_met, h]

theorem readNextLine_met_clim_prev (indet : Row) (c : Climate) :
    (readNextLine_met indet c).clim_prev = c.clim_prev := by
  by_cases h : (IfStream.getline c.fin_met).1.eof = true <;> simp [readNextLine_met, h]

theorem readNextLine_met_clim_eq (indet : Row) (c : Climate) :
    (readNextLine_met indet c).clim = c.clim := by
  by_cases h : (IfStream.getline c.fin_met).1.eof = true <;> simp [readNextLine_met, h]

/-- The member `clim` is neither read nor written by `readNextLine_met`. -/
theorem readNextLine_met_clim (indet : Row) (c : Climate) (x : Clim) :
    readNextLine_met indet { c with clim := x } =
      { readNextLine_met indet c with clim := x } := by
  by_cases h : (IfStream.getline c.fin_met).1.eof = true <;> simp [readNextLine_met, h]

/-- Skipping the header after a rewind, when a line follows the header. -/
theorem getline_header {f : CsvFile} (h : 2 ≤ f.lines.length) :
    IfStream.getline ⟨some f, 0, false, false⟩ = (⟨some f, 1, false, false⟩, f.lines[0]?) := by
  have h0 : 0 < f.lines.length := by omega
  have : f.lines[0]? = some f.lines[0] := List.getElem?_eq_getElem h0
  rw [this]
  exact getline_mid this (Or.inl (by omega))

/-! ## `init` -/

/-- The state `init` leaves behind when both files open and the meteorology
file holds a header and two records that are read without reaching the end of
the input. -/
theorem init_two_records (indet : Row) (f g : CsvFile) (c : Climate) (hdr r0 r1 : Row)
    (rest : List Row) (hm : c.fin_met.file = none) (hc : c.fin_co2.file = none)
    (hl : f.lines = hdr :: r0 :: r1 :: rest)
    (ht : f.lastLineTerminated = true ∨ rest ≠ []) :
    init indet (some f) (some g) c =
      (0, { c with
        fin_met := ⟨some f, 3, false, false⟩,
        fin_co2 := (IfStream.getline ⟨some g, 0, false, false⟩).1,
        t_now := rowTimeAt c.t_base r0,
        t_prev := rowTimeAt c.t_base r0,
        clim := withRow c.clim_next r0,
        clim_prev := withRow c.clim_next r0,
        clim_next := withRow c.clim_next r1,
        t_next := rowTimeAt c.t_base r1 }) := by
  have h0 : f.lines[0]? = some hdr := by simp [hl]
  have h1 : f.lines[1]? = some r0 := by simp [hl]
  have h2 : f.lines[2]? = some r1 := by simp [hl]
  have hlen : f.lines.length = rest.length + 3 := by simp [hl]
  have ht2 : 2 + 1 < f.lines.length ∨ f.lastLineTerminated = true := by
    rcases ht with ht | ht
    · exact Or.inr ht
    · left
      have : 0 < rest.length := List.length_pos.mpr ht
      omega
  obtain ⟨tp, tn, cp, cn, tb, tnow, cl, ip, ⟨fm, pm, em, flm⟩, ⟨fc, pc, ec, flc⟩⟩ := c
  simp only at hm hc
  subst hm hc
  have e1 : IfStream.getline ⟨some f, 0, false, false⟩ = (⟨some f, 1, false, false⟩, some hdr) :=
    getline_mid h0 (Or.inl (by omega))
  have e3 := readNextLine_met_mid indet
    ⟨tp, tn, cp, cn, tb, tnow, cl, ip, ⟨some f, 1, false, false⟩,
      (IfStream.getline ⟨some g, 0, false, false⟩).1⟩ rfl h1 (Or.inl (by omega))
  simp only [init, IfStream.open, IfStream.fail, Bool.false_eq_true, if_false, e1, e3]
  rw [readNextLine_met_mid indet _ rfl h2 ht2]
  rfl

/-- The state `init` leaves behind when the meteorology file holds a header and
exactly two records and does not end with a newline: the second record is read
as the end of the input, with `t_base` moved to the time of the first. -/
theorem init_two_unterminated (indet : Row) (f g : CsvFile) (c : Climate) (hdr r0 r1 : Row)
    (hm : c.fin_met.file = none) (hc : c.fin_co2.file = none)
    (hl : f.lines = [hdr, r0, r1]) (ht : f.lastLineTerminated = false) :
    init indet (some f) (some g) c =
      (0, { c with
        fin_met := ⟨some f, 1, false, false⟩,
        fin_co2 := (IfStream.getline ⟨some g, 0, false, false⟩).1,
        t_now := rowTimeAt c.t_base r0,
        t_prev := rowTimeAt c.t_base r0,
        clim := withRow c.clim_next r0,
        clim_prev := withRow c.clim_next r0,
        t_base := rowTimeAt c.t_base r0,
        clim_next := withRow c.clim_next r1,
        t_next := rowTimeAt (rowTimeAt c.t_base r0) r1 }) := by
  have h0 : f.lines[0]? = some hdr := by simp [hl]
  have h1 : f.lines[1]? = some r0 := by simp [hl]
  have h2 : f.lines[2]? = some r1 := by simp [hl]
  have hlen : f.lines.length = 3 := by simp [hl]
  obtain ⟨tp, tn, cp, cn, tb, tnow, cl, ip, ⟨fm, pm, em, flm⟩, ⟨fc, pc, ec, flc⟩⟩ := c
  simp only at hm hc
  subst hm hc
  have e1 : IfStream.getline ⟨some f, 0, false, false⟩ = (⟨some f, 1, false, false⟩, some hdr) :=
    getline_mid h0 (Or.inl (by omega))
  have e3 := readNextLine_met_mid indet
    ⟨tp, tn, cp, cn, tb, tnow, cl, ip, ⟨some f, 1, false, false⟩,
      (IfStream.getline ⟨some g, 0, false, false⟩).1⟩ rfl h1 (Or.inl (by omega))
  simp only [init, IfStream.open, IfStream.fail, Bool.false_eq_true, if_false, e1, e3]
  rw [readNextLine_met_last indet _ rfl h2 (by omega) ht, e1]
  rfl

/-- After a successful `init`, `t_prev` equals `t_now` and `clim` equals
`clim_prev`, whatever was read. -/
theorem init_ok_post (indet : Row) (met co2 : Option CsvFile) (c : Climate)
    (h : (init indet met co2 c).1 = 0) :
    (init indet met co2 c).2.t_prev = (init indet met co2 c).2.t_now ∧
    (init indet met co2 c).2.clim = (init indet met co2 c).2.clim_prev := by
  by_cases h1 : (c.fin_met.open met).fail = true
  · simp [init, h1] at h
  · by_cases h2 : (c.fin_co2.open co2).fail = true
    · simp [init, h1, h2] at h
    · simp only [init, h1, h2, if_false, readNextLine_met_t_prev, readNextLine_met_t_now,
        readNextLine_met_clim_eq, readNextLine_met_clim_prev, and_self, Bool.false_eq_true]

/-! ## The loop of `updateClimate` -/

theorem loopBody_clim (indet : Row) (c : Climate) (x : Clim) :
    loopBody indet { c with clim := x } = { loopBody indet c with clim := x } :=
  readNextLine_met_clim indet { c with clim_prev := c.clim_next, t_prev := c.t_next } x

theorem advance_zero (indet : Row) (t : ℚ) (c : Climate) :
    advance indet 0 t c = if t ≥ c.t_next then none else some c := rfl

theorem advance_succ (indet : Row) (fuel : Nat) (t : ℚ) (c : Climate) :
    advance indet (fuel + 1) t c =
      if t ≥ c.t_next then advance indet fuel t (loopBody indet c) else some c := rfl

theorem advance_stop (indet : Row) (fuel : Nat) (t : ℚ) (c : Climate) (h : t < c.t_next) :
    advance indet fuel t c = some c := by
  cases fuel with
  | zero => simp [advance_zero, not_le.mpr h]
  | succ n => simp [advance_succ, not_le.mpr h]

theorem advance_step (indet : Row) (fuel : Nat) (t : ℚ) (c : Climate) (h : c.t_next ≤ t) :
    advance indet (fuel + 1) t c = advance indet fuel t (loopBody indet c) := by
  simp [advance_succ, h]

/-- More iterations allowed do not change a result. -/
theorem advance_mono (indet : Row) (t : ℚ) (k : Nat) :
    ∀ (fuel : Nat) (c s : Climate), advance indet fuel t c = some s →
      advance indet (fuel + k) t c = some s := by
  intro fuel
  induction fuel with
  | zero =>
    intro c s h
    by_cases ht : c.t_next ≤ t
    · simp [advance_zero, ht] at h
    · rw [advance_stop indet _ t c (not_le.mp ht)] at h ⊢
      exact h
  | succ n ih =>
    intro c s h
    by_cases ht : c.t_next ≤ t
    · rw [advance_step indet _ t c ht] at h
      have : n + 1 + k = (n + k) + 1 := by omega
      rw [this, advance_step indet _ t c ht]
      exact ih _ _ h
    · rw [advance_stop indet _ t c (not_le.mp ht)] at h ⊢
      exact h

theorem advance_mono_le (indet : Row) (t : ℚ) {fuel fuel2 : Nat} (hle : fuel ≤ fuel2)
    {c s : Climate} (h : advance indet fuel t c = some s) :
    advance indet fuel2 t c = some s := by
  obtain ⟨k, rfl⟩ := Nat.exists_eq_add_of_le hle
  exact advance_mono indet t k fuel c s h

/-- The loop does not depend on the member `clim` and leaves it alone. -/
theorem advance_clim (indet : Row) (t : ℚ) (x : Clim) :
    ∀ (fuel : Nat) (c : Climate), advance indet fuel t { c with clim := x } =
      (advance indet fuel t c).map fun s => { s with clim := x } := by
  intro fuel
  induction fuel with
  | zero =>
    intro c
    by_cases ht : c.t_next ≤ t
    · simp [advance_zero, ht]
    · simp [advance_zero, ht]
  | succ n ih =>
    intro c
    by_cases ht : c.t_next ≤ t
    · rw [advance_step indet _ t c ht, advance_step indet _ t { c with clim := x } ht]
      rw [loopBody_clim, ih]
    · simp [advance_succ, ht]

/-- What the loop guarantees when it ends: the query time is below `t_next`,
`t_now` is untouched, and either no iteration ran or `t_prev` is at most the
query time. -/
theorem advance_post (indet : Row) (t : ℚ) :
    ∀ (fuel : Nat) (c s : Climate), advance indet fuel t c = some s →
      t < s.t_next ∧ s.t_now = c.t_now ∧ s.clim = c.clim ∧ (s = c ∨ s.t_prev ≤ t) := by
  intro fuel
  induction fuel with
  | zero =>
    intro c s h
    by_cases ht : c.t_next ≤ t
    · simp [advance_zero, ht] at h
    · simp [advance_zero, ht] at h
      subst h
      exact ⟨not_le.mp ht, rfl, rfl, Or.inl rfl⟩
  | succ n ih =>
    intro c s h
    by_cases ht : c.t_next ≤ t
    · rw [advance_step indet _ t c ht] at h
      obtain ⟨h1, h2, h3, h4⟩ := ih _ _ h
      refine ⟨h1, ?_, ?_, Or.inr ?_⟩
      · rw [h2, loopBody, readNextLine_met_t_now]
      · rw [h3, loopBody, readNextLine_met_clim_eq]
      · rcases h4 with h4 | h4
        · rw [h4, loopBody, readNextLine_met_t_prev]
          exact ht
        · exact h4
    · simp [advance_succ, ht] at h
      subst h
      exact ⟨not_le.mp ht, rfl, rfl, Or.inl rfl⟩

/-- A later query passes through the state at which an earlier query stops. -/
theorem advance_split (indet : Row) (t1 t2 : ℚ) (h12 : t1 ≤ t2) :
    ∀ (fuel : Nat) (c s : Climate), advance indet fuel t2 c = some s →
      ∃ s1, advance indet fuel t1 c = some s1 ∧ advance indet fuel t2 s1 = some s := by
  intro fuel
  induction fuel with
  | zero =>
    intro c s h
    by_cases ht : c.t_next ≤ t2
    · simp [advance_zero, ht] at h
    · have ht1 : t1 < c.t_next := lt_of_le_of_lt h12 (not_le.mp ht)
      exact ⟨c, advance_stop indet _ t1 c ht1, h⟩
  | succ n ih =>
    intro c s h
    by_cases ht1 : c.t_next ≤ t1
    · have ht2 : c.t_next ≤ t2 := le_trans ht1 h12
      rw [advance_step indet _ t2 c ht2] at h
      obtain ⟨s1, hs1, hs2⟩ := ih _ _ h
      exact ⟨s1, by rw [advance_step indet _ t1 c ht1]; exact hs1,
        advance_mono indet t2 1 n s1 s hs2⟩
    · exact ⟨c, advance_stop indet _ t1 c (not_le.mp ht1), h⟩

/-- Stopping for an earlier query and going on for a later one is the loop of
the later query. -/
theorem advance_join (indet : Row) (t1 t2 : ℚ) (h12 : t1 ≤ t2) (f2 : Nat) :
    ∀ (f1 : Nat) (c s1 s : Climate), advance indet f1 t1 c = some s1 →
      advance indet f2 t2 s1 = some s → advance indet (f1 + f2) t2 c = some s := by
  intro f1
  induction f1 with
  | zero =>
    intro c s1 s h1 h2
    by_cases ht : c.t_next ≤ t1
    · simp [advance_zero, ht] at h1
    · simp [advance_zero, ht] at h1
      subst h1
      simpa using h2
  | succ n ih =>
    intro c s1 s h1 h2
    by_cases ht1 : c.t_next ≤ t1
    · have ht2 : c.t_next ≤ t2 := le_trans ht1 h12
      rw [advance_step indet _ t1 c ht1] at h1
      have : n + 1 + f2 = (n + f2) + 1 := by omega
      rw [this, advance_step indet _ t2 c ht2]
      exact ih _ _ _ h1 h2
    · simp [advance_succ, ht1] at h1
      subst h1
      exact advance_mono_le indet t2 (by omega) h2

/-! ## `updateClimate` -/

/-- Since `interp` returns `clim_prev`, a call that does not return at once
runs the loop and then copies `clim_prev` into `clim`. -/
theorem updateClimate_eq (indet : Row) (fuel : Nat) (t : ℚ) (c : Climate) :
    updateClimate indet fuel t c =
      if t = c.t_now then some c
      else (advance indet fuel t c).map fun s => { s with clim := s.clim_prev } := by
  unfold updateClimate
  by_cases h : t = c.t_now
  · simp [h]
  · simp only [h, if_false, interp]
    by_cases hb : t > c.t_prev ∧ t < c.t_next
    · simp only [hb, and_self, if_true, advance_clim, Option.map_map]
      rfl
    · simp only [hb, if_false]

theorem updateClimate_now (indet : Row) (fuel : Nat) (c : Climate) :
    updateClimate indet fuel c.t_now c = some c := by
  simp [updateClimate_eq]

theorem updateClimate_of_advance (indet : Row) {fuel : Nat} {t : ℚ} {c s : Climate}
    (hne : t ≠ c.t_now) (h : advance indet fuel t c = some s) :
    updateClimate indet fuel t c = some { s with clim := s.clim_prev } := by
  simp [updateClimate_eq, hne, h]

theorem updateClimate_inv (indet : Row) {fuel : Nat} {t : ℚ} {c s : Climate}
    (hne : t ≠ c.t_now) (h : updateClimate indet fuel t c = some s) :
    ∃ s1, advance indet fuel t c = some s1 ∧ s = { s1 with clim := s1.clim_prev } := by
  simp only [updateClimate_eq, hne, if_false, Option.map_eq_some'] at h
  obtain ⟨s1, h1, h2⟩ := h
  exact ⟨s1, h1, h2.symm⟩

/-- What a call guarantees for the query it serves, given that the previous
query `tl` was bracketed and was not later than `t`. -/
theorem updateClimate_bracket (indet : Row) {fuel : Nat} {t tl : ℚ} {c s : Climate}
    (h0 : c.t_now ≤ tl) (h1 : c.t_prev ≤ tl) (h2 : tl ≤ c.t_next) (ht : tl ≤ t)
    (h : updateClimate indet fuel t c = some s) :
    s.t_now = c.t_now ∧ s.t_prev ≤ t ∧ t ≤ s.t_next := by
  by_cases hne : t = c.t_now
  · rw [hne, updateClimate_now] at h
    have hs : s = c := (Option.some.inj h).symm
    subst hs
    have : tl = s.t_now := le_antisymm (hne ▸ ht) h0
    rw [hne]
    exact ⟨rfl, this ▸ h1, this ▸ h2⟩
  · obtain ⟨s1, ha, rfl⟩ := updateClimate_inv indet hne h
    obtain ⟨p1, p2, _, p4⟩ := advance_post indet t fuel c s1 ha
    refine ⟨p2, ?_, le_of_lt p1⟩
    rcases p4 with p4 | p4
    · rw [p4]
      exact le_trans h1 ht
    · exact p4

/-- The state is bracketed after every call of a non-decreasing sequence. -/
theorem updateClimates_bracket (indet : Row) (fuel : Nat) :
    ∀ (ts : List ℚ) (tl : ℚ) (c s : Climate), c.t_now ≤ tl → c.t_prev ≤ tl → tl ≤ c.t_next →
      List.Chain (fun a b => a ≤ b) tl ts → updateClimates indet fuel ts c = some s →
      s.t_now = c.t_now ∧ s.t_prev ≤ ts.getLast?.getD tl ∧ ts.getLast?.getD tl ≤ s.t_next := by
  intro ts
  induction ts with
  | nil =>
    intro tl c s h0 h1 h2 _ h
    simp only [updateClimates, Option.some.injEq] at h
    subst h
    exact ⟨rfl, h1, h2⟩
  | cons t ts ih =>
    intro tl c s h0 h1 h2 hch h
    rw [List.chain_cons] at hch
    simp only [updateClimates, Option.bind_eq_some] at h
    obtain ⟨s1, hs1, hrest⟩ := h
    obtain ⟨q0, q1, q2⟩ := updateClimate_bracket indet h0 h1 h2 hch.1 hs1
    have := ih t s1 s (by rw [q0]; exact le_trans h0 hch.1) q1 q2 hch.2 hrest
    rw [q0] at this
    have hl : (t :: ts).getLast?.getD tl = ts.getLast?.getD t := by
      cases ts with
      | nil => rfl
      | cons u us =>
        rw [List.getLast?_cons_cons, List.getLast?_eq_getLast (u :: us) (List.cons_ne_nil _ _)]
        rfl
    rw [hl]
    exact this

/-- Two calls with times in order against the later call alone, from a state
as `init` leaves it. -/
theorem updateClimate_two_calls (indet : Row) {t1 t2 : ℚ} (h12 : t1 ≤ t2) (c : Climate)
    (hc : c.clim = c.clim_prev) (hn : c.t_now ≤ c.t_next) (fuel : Nat) :
    (∀ s, updateClimate indet fuel t2 c = some s →
      ∃ s1, updateClimate indet fuel t1 c = some s1 ∧ updateClimate indet fuel t2 s1 = some s) ∧
    (∀ fuel2 s1 s, updateClimate indet fuel t1 c = some s1 →
      updateClimate indet fuel2 t2 s1 = some s →
      updateClimate indet (fuel + fuel2) t2 c = some s) := by
  have hself : ({ c with clim := c.clim_prev } : Climate) = c := by
    cases c
    simp only at hc
    simp [hc]
  by_cases e1 : t1 = c.t_now
  · subst e1
    constructor
    · intro s h
      exact ⟨c, updateClimate_now indet fuel c, h⟩
    · intro fuel2 s1 s h1 h2
      rw [updateClimate_now] at h1
      have : s1 = c := (Option.some.inj h1).symm
      subst this
      by_cases e2 : t2 = s1.t_now
      · rw [e2, updateClimate_now] at h2 ⊢
        exact h2
      · obtain ⟨s2, ha, rfl⟩ := updateClimate_inv indet e2 h2
        exact updateClimate_of_advance indet e2 (advance_mono_le indet t2 (by omega) ha)
  · by_cases e2 : t2 = c.t_now
    · -- the earlier query is below `t_now`, hence below `t_next`: no iteration runs
      have hlt : t1 < c.t_next :=
        lt_of_lt_of_le (lt_of_le_of_ne (e2 ▸ h12) e1) hn
      have hu1 : ∀ k, updateClimate indet k t1 c = some c := by
        intro k
        rw [updateClimate_of_advance indet e1 (advance_stop indet k t1 c hlt), hself]
      constructor
      · intro s h
        exact ⟨c, hu1 fuel, h⟩
      · intro fuel2 s1 s h1 h2
        rw [hu1] at h1
        have : s1 = c := (Option.some.inj h1).symm
        subst this
        rw [e2, updateClimate_now] at h2 ⊢
        exact h2
    · constructor
      · intro s h
        obtain ⟨s2, ha, rfl⟩ := updateClimate_inv indet e2 h
        obtain ⟨s1, hs1, hs2⟩ := advance_split indet t1 t2 h12 fuel c s2 ha
        refine ⟨{ s1 with clim := s1.clim_prev }, updateClimate_of_advance indet e1 hs1, ?_⟩
        have hnow : s1.t_now = c.t_now := (advance_post indet t1 fuel c s1 hs1).2.1
        have e2b : t2 ≠ ({ s1 with clim := s1.clim_prev } : Climate).t_now := by
          simpa [hnow] using e2
        rw [updateClimate_of_advance indet e2b
          (by rw [advance_clim, hs2]; rfl : advance indet fuel t2 _ = some { s2 with clim := s1.clim_prev })]
      · intro fuel2 s1 s h1 h2
        obtain ⟨s1a, ha1, rfl⟩ := updateClimate_inv indet e1 h1
        have hnow : s1a.t_now = c.t_now := (advance_post indet t1 fuel c s1a ha1).2.1
        have e2b : t2 ≠ ({ s1a with clim := s1a.clim_prev } : Climate).t_now := by
          simpa [hnow] using e2
        obtain ⟨s2, ha2, rfl⟩ := updateClimate_inv indet e2b h2
        rw [advance_clim] at ha2
        simp only [Option.map_eq_some'] at ha2
        obtain ⟨s3, ha3, rfl⟩ := ha2
        rw [updateClimate_of_advance indet e2 (advance_join indet t1 t2 h12 fuel2 fuel c s1a s3 ha1 ha3)]

/-! ## The loop along the records of the file -/

theorem loopBody_mid (indet : Row) {f : CsvFile} {p : Nat} {r : Row} (c : Climate)
    (hs : c.fin_met = ⟨some f, p, false, false⟩) (hr : f.lines[p]? = some r)
    (h : p + 1 < f.lines.length ∨ f.lastLineTerminated = true) :
    loopBody indet c =
      { c with
        clim_prev := c.clim_next,
        t_prev := c.t_next,
        fin_met := ⟨some f, p + 1, false, false⟩,
        clim_next := withRow c.clim_next r,
        t_next := rowTimeAt c.t_base r } := by
  exact readNextLine_met_mid indet { c with clim_prev := c.clim_next, t_prev := c.t_next }
    hs hr h

theorem loopBody_last (indet : Row) {f : CsvFile} {p : Nat} {r : Row} (c : Climate)
    (hs : c.fin_met = ⟨some f, p, false, false⟩) (hr : f.lines[p]? = some r)
    (h1 : p + 1 = f.lines.length) (h2 : f.lastLineTerminated = false)
    (h3 : 2 ≤ f.lines.length) :
    loopBody indet c =
      { c with
        clim_prev := c.clim_next,
        t_prev := c.t_next,
        fin_met := ⟨some f, 1, false, false⟩,
        t_base := c.t_next,
        clim_next := withRow c.clim_next r,
        t_next := rowTimeAt c.t_next r } := by
  rw [loopBody, readNextLine_met_last indet { c with clim_prev := c.clim_next, t_prev := c.t_next }
    hs hr h1 h2, getline_header h3]

theorem getElem?_after (pre : List Row) (r : Row) (tl : List Row) :
    (pre ++ r :: tl)[pre.length]? = some r := by
  rw [List.getElem?_append_right (le_refl _)]
  simp

theorem lastRow_concat (x : Row) : ∀ (l : List Row) (b : Row), lastRow b (l ++ [x]) = x := by
  intro l
  induction l with
  | nil => intro b; rfl
  | cons a l ih => intro b; exact ih a

theorem exists_front (rest : List Row) :
    ∀ b : Row, ∃ front, b :: rest = front ++ [lastRow b rest] := by
  induction rest with
  | nil => intro b; exact ⟨[], rfl⟩
  | cons r rest ih =>
    intro b
    obtain ⟨fr, hfr⟩ := ih r
    refine ⟨b :: fr, ?_⟩
    show b :: r :: rest = b :: (fr ++ [lastRow r rest])
    rw [← hfr]

theorem getLast?_eq_lastRow (rest : List Row) :
    ∀ b : Row, (b :: rest).getLast? = some (lastRow b rest) := by
  induction rest with
  | nil => intro b; rfl
  | cons r rest ih => intro b; rw [List.getLast?_cons_cons, ih r]; rfl

/-- In a sequence of strictly increasing times every record is at most as late
as the last one. -/
theorem rowTime_le_lastRow (rest : List Row) :
    ∀ b : Row, (b :: rest).Pairwise (fun a b => rowTime a < rowTime b) →
      ∀ r ∈ b :: rest, rowTime r ≤ rowTime (lastRow b rest) := by
  induction rest with
  | nil =>
    intro b _ r hr
    simp only [List.mem_singleton] at hr
    subst hr
    exact le_refl _
  | cons x rest ih =>
    intro b hp r hr
    rw [List.pairwise_cons] at hp
    have hx := ih x hp.2
    rcases List.mem_cons.mp hr with h | h
    · subst h
      exact le_trans (le_of_lt (hp.1 x (List.mem_cons_self _ _))) (hx x (List.mem_cons_self _ _))
    · exact hx r h

/-- The record just before the first one later than `t` is the latest record
whose time is at most `t`. -/
theorem latest_of_split {recs l l' : List Row} {x y : Row} {t : ℚ}
    (hs : recs.Pairwise (fun a b => rowTime a < rowTime b))
    (he : recs = l ++ x :: y :: l') (hx : rowTime x ≤ t) (hy : t < rowTime y) :
    x ∈ recs ∧ rowTime x ≤ t ∧ ∀ r ∈ recs, rowTime r ≤ t → rowTime r ≤ rowTime x := by
  subst he
  refine ⟨by simp, hx, ?_⟩
  intro r hr hrt
  rw [List.pairwise_append] at hs
  obtain ⟨_, h2, h3⟩ := hs
  rw [List.pairwise_cons, List.pairwise_cons] at h2
  rcases List.mem_append.mp hr with h | h
  · exact le_of_lt (h3 r h x (List.mem_cons_self _ _))
  · rcases List.mem_cons.mp h with h | h
    · rw [h]
    · exfalso
      rcases List.mem_cons.mp h with h | h
      · rw [h] at hrt
        exact absurd hy (not_lt.mpr hrt)
      · have := h2.2.1 r h
        exact absurd (lt_trans hy this) (not_lt.mpr hrt)

/-- The loop passes a block of lines, none of them the end of the input, when
the query time is not below any of their times. -/
theorem advance_through (indet : Row) (f : CsvFile) (t : ℚ) (N : Clim) (post : List Row)
    (hpost : post ≠ [] ∨ f.lastLineTerminated = true) :
    ∀ (rest pre : List Row) (c : Climate) (b : Row),
      f.lines = pre ++ rest ++ post →
      c.fin_met = ⟨some f, pre.length, false, false⟩ →
      c.t_next = rowTimeAt c.t_base b → c.clim_next = withRow N b →
      (∀ r ∈ b :: rest, rowTimeAt c.t_base r ≤ t) →
      ∃ c', (∀ fuel, advance indet (rest.length + fuel) t c = advance indet fuel t c') ∧
        c'.fin_met = ⟨some f, pre.length + rest.length, false, false⟩ ∧
        c'.t_base = c.t_base ∧
        c'.t_next = rowTimeAt c.t_base (lastRow b rest) ∧
        c'.clim_next = withRow N (lastRow b rest) := by
  intro rest
  induction rest with
  | nil =>
    intro pre c b _ hs hn hcn _
    exact ⟨c, by intro fuel; simp, by simpa using hs, rfl, hn, hcn⟩
  | cons r rest ih =>
    intro pre c b hl hs hn hcn hall
    have hr : f.lines[pre.length]? = some r := by
      rw [hl, List.append_assoc]
      exact getElem?_after pre r _
    have hlen : pre.length + 1 < f.lines.length ∨ f.lastLineTerminated = true := by
      rcases hpost with hp | hp
      · left
        have : 0 < post.length := List.length_pos.mpr hp
        rw [hl]
        simp only [List.length_append, List.length_cons]
        omega
      · exact Or.inr hp
    have hb := loopBody_mid indet c hs hr hlen
    have hle : c.t_next ≤ t := by
      rw [hn]
      exact hall b (List.mem_cons_self _ _)
    obtain ⟨c', h1, h2, h3, h4, h5⟩ := ih (pre ++ [r]) (loopBody indet c) r
      (by rw [hl]; simp) (by rw [hb]; simp) (by rw [hb]) (by rw [hb, hcn]; rfl)
      (by rw [hb]; intro x hx; exact hall x (List.mem_cons_of_mem _ hx))
    refine ⟨c', ?_, ?_, ?_, ?_, ?_⟩
    · intro fuel
      have : (r :: rest).length + fuel = (rest.length + fuel) + 1 := by
        simp only [List.length_cons]
        omega
      rw [this, advance_step indet _ t c hle]
      exact h1 fuel
    · rw [h2]
      simp only [List.length_append, List.length_cons, List.length_nil, IfStream.mk.injEq,
        and_true, true_and]
      omega
    · rw [h3, hb]
    · rw [h4, hb]
      rfl
    · rw [h5]
      rfl

/-- The loop stops inside a block of lines read with `t_base = 2000` when the
query time is below the time of the last of them: it stops between two
consecutive records that bracket the query time. -/
theorem advance_within (indet : Row) (f : CsvFile) (t : ℚ) (N : Clim) (post : List Row)
    (hpost : post ≠ [] ∨ f.lastLineTerminated = true) :
    ∀ (rest pre : List Row) (c : Climate) (a b : Row),
      f.lines = pre ++ rest ++ post →
      c.fin_met = ⟨some f, pre.length, false, false⟩ → c.t_base = 2000 →
      c.t_prev = rowTime a → c.clim_prev = withRow N a →
      c.t_next = rowTime b → c.clim_next = withRow N b →
      rowTime a ≤ t → t < rowTime (lastRow b rest) →
      ∃ s l x y l', advance indet rest.length t c = some s ∧
        a :: b :: rest = l ++ x :: y :: l' ∧ rowTime x ≤ t ∧ t < rowTime y ∧
        s.clim_prev = withRow N x ∧ s.t_prev = rowTime x ∧ s.t_next = rowTime y := by
  intro rest
  induction rest with
  | nil =>
    intro pre c a b _ _ _ hp hcp hn _ hat hlt
    exact ⟨c, [], a, b, [], advance_stop indet _ t c (by rw [hn]; exact hlt), rfl, hat, hlt,
      hcp, hp, hn⟩
  | cons r rest ih =>
    intro pre c a b hl hs hbase hp hcp hn hcn hat hlt
    by_cases hstop : t < rowTime b
    · exact ⟨c, [], a, b, r :: rest, advance_stop indet _ t c (by rw [hn]; exact hstop), rfl,
        hat, hstop, hcp, hp, hn⟩
    · have hle : c.t_next ≤ t := by
        rw [hn]
        exact not_lt.mp hstop
      have hr : f.lines[pre.length]? = some r := by
        rw [hl, List.append_assoc]
        exact getElem?_after pre r _
      have hlen : pre.length + 1 < f.lines.length ∨ f.lastLineTerminated = true := by
        rcases hpost with hq | hq
        · left
          have : 0 < post.length := List.length_pos.mpr hq
          rw [hl]
          simp only [List.length_append, List.length_cons]
          omega
        · exact Or.inr hq
      have hb := loopBody_mid indet c hs hr hlen
      obtain ⟨s, l, x, y, l', h1, h2, h3, h4, h5, h6, h7⟩ :=
        ih (pre ++ [r]) (loopBody indet c) b r
          (by rw [hl]; simp) (by rw [hb]; simp) (by rw [hb]; exact hbase)
          (by rw [hb]; exact hn) (by rw [hb]; exact hcn)
          (by rw [hb]; simp only; rw [hbase]; rfl) (by rw [hb, hcn]; rfl)
          (not_lt.mp hstop) hlt
      refine ⟨s, a :: l, x, y, l', ?_, by rw [h2]; rfl, h3, h4, h5, h6, h7⟩
      rw [List.length_cons, advance_step indet _ t c hle]
      exact h1

/-- The loop from the state reached when the last record `rl` of a file without
final newline has just been read as the end of the input, with `t_base` moved to
the time of the record `pen` before it.  For a query time between the two
records the loop ends with `clim_prev` still holding `pen`: either at once, or
after one more pass over the file, at the end of which `t_base` is 2000 again. -/
theorem advance_after_last (indet : Row) (f : CsvFile) (t : ℚ) (N : Clim) (hdr pen rl : Row)
    (front : List Row) (c : Climate)
    (hl : f.lines = [hdr] ++ (front ++ [pen]) ++ [rl]) (hu : f.lastLineTerminated = false)
    (hs : c.fin_met = ⟨some f, 1, false, false⟩) (hb : c.t_base = rowTime pen)
    (hp : c.t_prev = rowTime pen) (hcp : c.clim_prev = withRow N pen)
    (hn : c.t_next = rowTimeAt (rowTime pen) rl) (hcn : c.clim_next = withRow N rl)
    (h1 : rowTime pen ≤ t) (h2 : t < rowTime rl)
    (hfront : ∀ r ∈ front, rowTime r ≤ rowTime pen) :
    ∃ fuel s, advance indet fuel t c = some s ∧ s.clim_prev = withRow N pen ∧
      s.t_prev ≤ t ∧ t < s.t_next := by
  by_cases ht : t < c.t_next
  · exact ⟨0, c, advance_stop indet _ t c ht, hcp, by rw [hp]; exact h1, ht⟩
  · have hle : c.t_next ≤ t := not_lt.mp ht
    have hL : rowTime rl + 2000 - rowTime pen ≤ t := by
      rw [← rowTimeAt_eq, ← hn]
      exact hle
    have h2000 : (2000 : ℚ) ≤ t := by linarith
    obtain ⟨c', e1, e2, e3, e4, e5⟩ := advance_through indet f t N [rl] (Or.inl (by simp))
      (front ++ [pen]) [hdr] c rl hl hs (by rw [hn, hb]) hcn
      (by
        intro r hr
        rw [hb, rowTimeAt_eq]
        rcases List.mem_cons.mp hr with h | h
        · rw [h]
          exact hL
        · rcases List.mem_append.mp h with h | h
          · have := hfront r h
            linarith
          · simp only [List.mem_singleton] at h
            rw [h]
            linarith)
    rw [lastRow_concat] at e4 e5
    have e4b : c'.t_next = 2000 := by
      rw [e4, hb, rowTimeAt_eq]
      ring
    have hlen : f.lines.length = front.length + 3 := by
      rw [hl]
      simp only [List.length_append, List.length_cons, List.length_nil]
      omega
    have hr : f.lines[[hdr].length + (front ++ [pen]).length]? = some rl := by
      rw [hl, ← List.length_append]
      exact getElem?_after _ rl []
    have hb2 := loopBody_last indet c' e2 hr
      (by rw [hlen]; simp only [List.length_append, List.length_cons, List.length_nil]; omega)
      hu (by omega)
    refine ⟨(front ++ [pen]).length + (0 + 1), loopBody indet c', ?_, ?_, ?_, ?_⟩
    · rw [e1, advance_step indet _ t c' (by rw [e4b]; exact h2000)]
      apply advance_stop
      rw [hb2]
      simp only
      rw [e4b]
      exact h2
    · rw [hb2]
      exact e5
    · rw [hb2]
      simp only
      rw [e4b]
      exact h2000
    · rw [hb2]
      simp only
      rw [e4b]
      exact h2

/-- The loop from the state `init` leaves, for a query time inside the range of
the records: it ends with `clim_prev` holding the latest record not later than
the query time, and with `t_prev ≤ t < t_next`. -/
theorem advance_from_init (indet : Row) (f g : CsvFile) (c0 : Climate) (hdr r0 r1 : Row)
    (rest : List Row) (t : ℚ)
    (hm : c0.fin_met.file = none) (hc : c0.fin_co2.file = none) (hb : c0.t_base = 2000)
    (hl : f.lines = hdr :: r0 :: r1 :: rest)
    (hsorted : (r0 :: r1 :: rest).Pairwise (fun a b => rowTime a < rowTime b))
    (h1 : rowTime r0 ≤ t) (h2 : t < rowTime (lastRow r1 rest)) :
    ∃ fuel s r, advance indet fuel t (init indet (some f) (some g) c0).2 = some s ∧
      r ∈ r0 :: r1 :: rest ∧ rowTime r ≤ t ∧
      (∀ r' ∈ r0 :: r1 :: rest, rowTime r' ≤ t → rowTime r' ≤ rowTime r) ∧
      s.clim_prev = withRow c0.clim_next r ∧ s.t_prev ≤ t ∧ t < s.t_next := by
  by_cases hterm : f.lastLineTerminated = true
  · -- every record is followed by a newline
    have hi := init_two_records indet f g c0 hdr r0 r1 rest hm hc hl (Or.inl hterm)
    obtain ⟨s, l, x, y, l', e1, e2, e3, e4, e5, e6, e7⟩ :=
      advance_within indet f t c0.clim_next [] (Or.inr hterm) rest [hdr, r0, r1]
        (init indet (some f) (some g) c0).2 r0 r1
        (by rw [hl]; simp) (by rw [hi]; rfl) (by rw [hi]; exact hb)
        (by rw [hi]; simp only; rw [hb]; rfl) (by rw [hi])
        (by rw [hi]; simp only; rw [hb]; rfl) (by rw [hi]) h1 h2
    obtain ⟨m1, m2, m3⟩ := latest_of_split hsorted e2 e3 e4
    exact ⟨_, s, x, e1, m1, m2, m3, e5, by rw [e6]; exact e3, by rw [e7]; exact e4⟩
  · have hu : f.lastLineTerminated = false := by simpa using hterm
    rcases List.eq_nil_or_concat rest with hnil | ⟨mid, rl, hmid⟩
    · -- two records, the second one read as the end of the input by `init`
      subst hnil
      have hi := init_two_unterminated indet f g c0 hdr r0 r1 hm hc hl hu
      obtain ⟨fuel, s, e1, e2, e3, e4⟩ :=
        advance_after_last indet f t c0.clim_next hdr r0 r1 []
          (init indet (some f) (some g) c0).2 (by rw [hl]; rfl) hu (by rw [hi])
          (by rw [hi]; simp only; rw [hb]; rfl) (by rw [hi]; simp only; rw [hb]; rfl)
          (by rw [hi]) (by rw [hi]; simp only; rw [hb]; rfl) (by rw [hi]) h1 h2 (by simp)
      obtain ⟨m1, m2, m3⟩ :=
        @latest_of_split _ [] [] r0 r1 t hsorted rfl h1 h2
      exact ⟨fuel, s, r0, e1, m1, m2, m3, e2, e3, e4⟩
    · rw [List.concat_eq_append] at hmid
      subst hmid
      rw [lastRow_concat] at h2
      have hi := init_two_records indet f g c0 hdr r0 r1 (mid ++ [rl]) hm hc hl
        (Or.inr (by simp))
      have hl2 : f.lines = [hdr, r0, r1] ++ mid ++ [rl] := by
        rw [hl]
        simp
      have hs1 : (r0 :: r1 :: mid).Pairwise (fun a b => rowTime a < rowTime b) := by
        have : r0 :: r1 :: (mid ++ [rl]) = (r0 :: r1 :: mid) ++ [rl] := by simp
        rw [this, List.pairwise_append] at hsorted
        exact hsorted.1
      by_cases hlt : t < rowTime (lastRow r1 mid)
      · -- the loop stops before the last record is read
        obtain ⟨s, l, x, y, l', e1, e2, e3, e4, e5, e6, e7⟩ :=
          advance_within indet f t c0.clim_next [rl] (Or.inl (by simp)) mid [hdr, r0, r1]
            (init indet (some f) (some g) c0).2 r0 r1
            hl2 (by rw [hi]; rfl) (by rw [hi]; exact hb)
            (by rw [hi]; simp only; rw [hb]; rfl) (by rw [hi])
            (by rw [hi]; simp only; rw [hb]; rfl) (by rw [hi]) h1 hlt
        have e2b : r0 :: r1 :: (mid ++ [rl]) = l ++ x :: y :: (l' ++ [rl]) := by
          have : r0 :: r1 :: (mid ++ [rl]) = (r0 :: r1 :: mid) ++ [rl] := by simp
          rw [this, e2]
          simp
        obtain ⟨m1, m2, m3⟩ := latest_of_split hsorted e2b e3 e4
        exact ⟨_, s, x, e1, m1, m2, m3, e5, by rw [e6]; exact e3, by rw [e7]; exact e4⟩
      · -- the last record is read as the end of the input
        have hge : rowTime (lastRow r1 mid) ≤ t := not_lt.mp hlt
        have hs2 : (r1 :: mid).Pairwise (fun a b => rowTime a < rowTime b) :=
          (List.pairwise_cons.mp hs1).2
        have hbase : (init indet (some f) (some g) c0).2.t_base = 2000 := by
          rw [hi]
          exact hb
        obtain ⟨c', e1, e2, e3, e4, e5⟩ :=
          advance_through indet f t c0.clim_next [rl] (Or.inl (by simp)) mid [hdr, r0, r1]
            (init indet (some f) (some g) c0).2 r1 hl2 (by rw [hi]; rfl)
            (by rw [hi]) (by rw [hi])
            (by
              intro r hr
              rw [hbase, rowTimeAt_2000]
              exact le_trans (rowTime_le_lastRow mid r1 hs2 r hr) hge)
        rw [hbase] at e3 e4
        rw [rowTimeAt_2000] at e4
        have hlen : f.lines.length = mid.length + 4 := by
          rw [hl]
          simp
        have hr : f.lines[[hdr, r0, r1].length + mid.length]? = some rl := by
          rw [hl2, ← List.length_append]
          exact getElem?_after _ rl []
        have hb2 := loopBody_last indet c' e2 hr
          (by rw [hlen]; simp only [List.length_cons, List.length_nil]; omega) hu (by omega)
        obtain ⟨front, hfront⟩ := exists_front mid r1
        obtain ⟨fuel, s, a1, a2, a3, a4⟩ :=
          advance_after_last indet f t c0.clim_next hdr (lastRow r1 mid) rl (r0 :: front)
            (loopBody indet c')
            (by
              have : r0 :: front ++ [lastRow r1 mid] = r0 :: r1 :: mid := by
                rw [List.cons_append, ← hfront]
              rw [hl, this]
              simp) hu
            (by rw [hb2]) (by rw [hb2]; exact e4) (by rw [hb2]; exact e4) (by rw [hb2]; exact e5)
            (by rw [hb2]; simp only; rw [e4]) (by rw [hb2, e5]; rfl) hge h2
            (by
              intro r hr
              apply rowTime_le_lastRow (r1 :: mid) r0 hs1 r
              rw [hfront]
              rcases List.mem_cons.mp hr with h | h
              · rw [h]
                exact List.mem_cons_self _ _
              · exact List.mem_cons_of_mem _ (List.mem_append_left _ h))
        have e2c : r0 :: r1 :: (mid ++ [rl]) = (r0 :: front) ++ lastRow r1 mid :: rl :: [] := by
          have : r0 :: r1 :: (mid ++ [rl]) = (r0 :: (r1 :: mid)) ++ [rl] := by simp
          rw [this, hfront]
          simp
        obtain ⟨m1, m2, m3⟩ := latest_of_split hsorted e2c hge h2
        refine ⟨mid.length + (fuel + 1), s, lastRow r1 mid, ?_, m1, m2, m3, a2, a3, a4⟩
        rw [e1, advance_step indet _ t c' (by rw [e4]; exact hge)]
        exact a1

/-! ## Properties of `Climate` -/

open Example

/-- C1: the code at the failing input, a file of two records of the year 5000
without final newline, with query times `t1 = 2500 ≤ t2 = 3000`.  `init` reads
the second record as the end of the input and leaves `t_next = 2000 + 1/12`
below `t_prev = t_now = 3000`.  The query at `t2` alone returns at once and
keeps `t_prev = 3000`; when the query at `t1` comes first the loop runs, and
the two calls end with `t_prev = 2000` and `t_next = 3000 + 1/12`. -/
theorem updateClimate_query_order_fails :
    (updateClimate zero 5 3000 (init zero (some far2u) (some co2) fresh).2).map
        (fun s => (s.t_prev, s.t_next)) = some (3000, 24001 / 12) ∧
    ((updateClimate zero 5 2500 (init zero (some far2u) (some co2) fresh).2).bind
        (updateClimate zero 5 3000)).map
        (fun s => (s.t_prev, s.t_next)) = some (2000, 36001 / 12) := by
  decide!

/-- Two queries in time order against the later one alone, where `init` reads
the first two records without reaching the end of the input: for a meteorology
file with a header and at least two records, the first two in increasing time
order, that ends with a newline or holds a third record, and for query times
`t1 ≤ t2`, `init`, `updateClimate(t1)`, `updateClimate(t2)` leaves the same
state as `init`, `updateClimate(t2)`.  Whenever the single call returns a state
within `fuel` loop iterations, so do the two calls, and it is that state;
whenever the two calls return, so does the single call, with the same state. -/
theorem updateClimate_query_order (indet : Row) (f g : CsvFile) (c0 : Climate)
    (hdr r0 r1 : Row) (rest : List Row) (t1 t2 : ℚ) (fuel : Nat)
    (hm : c0.fin_met.file = none) (hc : c0.fin_co2.file = none)
    (hl : f.lines = hdr :: r0 :: r1 :: rest)
    (ht : f.lastLineTerminated = true ∨ rest ≠ [])
    (h01 : rowTime r0 < rowTime r1) (h12 : t1 ≤ t2) :
    (∀ s, updateClimate indet fuel t2 (init indet (some f) (some g) c0).2 = some s →
      ∃ s1, updateClimate indet fuel t1 (init indet (some f) (some g) c0).2 = some s1 ∧
        updateClimate indet fuel t2 s1 = some s) ∧
    (∀ fuel2 s1 s, updateClimate indet fuel t1 (init indet (some f) (some g) c0).2 = some s1 →
      updateClimate indet fuel2 t2 s1 = some s →
      updateClimate indet (fuel + fuel2) t2 (init indet (some f) (some g) c0).2 = some s) := by
  have hi := init_two_records indet f g c0 hdr r0 r1 rest hm hc hl ht
  have h0 : (init indet (some f) (some g) c0).1 = 0 := by rw [hi]
  have hpost := init_ok_post indet (some f) (some g) c0 h0
  apply updateClimate_two_calls indet h12 _ hpost.2
  rw [hi]
  simp only [rowTimeAt_eq]
  linarith

theorem updateClimate_query_order_witness :
    met3.lines = header :: jan :: feb :: [mar] ∧ rowTime jan < rowTime feb ∧
    ∃ s s1, updateClimate zero 3 (1 / 8) (init zero (some met3) (some co2) fresh).2 = some s ∧
      updateClimate zero 3 (1 / 24) (init zero (some met3) (some co2) fresh).2 = some s1 ∧
      updateClimate zero 3 (1 / 8) s1 = some s := by
  have h01 : rowTime jan < rowTime feb := by decide!
  refine ⟨rfl, h01, ?_⟩
  have h : (updateClimate zero 3 (1 / 8) (init zero (some met3) (some co2) fresh).2).isSome
      = true := by decide!
  obtain ⟨s, hs⟩ := Option.isSome_iff_exists.mp h
  obtain ⟨s1, h1, h2⟩ :=
    (updateClimate_query_order zero met3 co2 fresh header jan feb [mar] (1 / 24) (1 / 8) 3
      rfl rfl rfl (Or.inl rfl) h01 (by norm_num)).1 s hs
  exact ⟨s, s1, hs, h1, h2⟩

/-- C2: what the code does when the series is exhausted.  First part: in a file
of three records that ends with a newline, after `init` the second iteration of
the loop reads at the end of the input; whatever the indeterminate values are,
they are what is loaded into `clim_next`, with `t_base` set to the time 1/6 of
the last record, and only the stream is put back behind the header.  Second
part: with indeterminate values taken as zero, `updateClimate(1/4)` ends with
`clim` holding these zeros and `t_prev = -1/4`, the first record being loaded
after them with the time `2000 - 1/6`.  Third part: when the file does not end
with a newline, `updateClimate(1/4)` reads the last record (March, time 1/6) as
the end of the input: it is loaded with the time `2000 + 1/12`, and `clim`
holds February. -/
theorem updateClimate_rewind_loads_stale_line :
    (∀ indet : Row,
      loopBody indet (loopBody indet (init indet (some met3) (some co2) fresh).2) =
        { (init indet (some met3) (some co2) fresh).2 with
          t_prev := 1 / 6, clim_prev := withRow {} mar,
          t_next := rowTimeAt (1 / 6) indet, clim_next := withRow {} indet,
          t_base := 1 / 6, fin_met := ⟨some met3, 1, false, false⟩ }) ∧
    (updateClimate zero 5 (1 / 4) (init zero (some met3) (some co2) fresh).2).map
        (fun s => (s.clim, s.t_prev, s.clim_next, s.t_next, s.t_base)) =
      some (withRow {} zero, -1 / 4, withRow {} jan, 2000 - 1 / 6, 1 / 6) ∧
    (updateClimate zero 5 (1 / 4) (init zero (some met3u) (some co2) fresh).2).map
        (fun s => (s.clim, s.t_prev, s.clim_next, s.t_next, s.t_base)) =
      some (withRow {} feb, 1 / 12, withRow {} mar, 2000 + 1 / 12, 1 / 12) := by
  refine ⟨?_, by decide!, by decide!⟩
  intro indet
  have hi := init_two_records indet met3 co2 fresh header jan feb [mar] rfl rfl rfl (Or.inl rfl)
  have e1 : (init indet (some met3) (some co2) fresh).2 =
      { fresh with
        fin_met := ⟨some met3, 3, false, false⟩,
        fin_co2 := (IfStream.getline ⟨some co2, 0, false, false⟩).1,
        t_now := rowTimeAt 2000 jan, t_prev := rowTimeAt 2000 jan,
        clim := withRow {} jan, clim_prev := withRow {} jan,
        clim_next := withRow {} feb, t_next := rowTimeAt 2000 feb } := by
    rw [hi]
    rfl
  rw [e1]
  have e2 := loopBody_mid indet
    ({ fresh with
        fin_met := ⟨some met3, 3, false, false⟩,
        fin_co2 := (IfStream.getline ⟨some co2, 0, false, false⟩).1,
        t_now := rowTimeAt 2000 jan, t_prev := rowTimeAt 2000 jan,
        clim := withRow {} jan, clim_prev := withRow {} jan,
        clim_next := withRow {} feb, t_next := rowTimeAt 2000 feb } : Climate)
    (f := met3) (p := 3) (r := mar) rfl rfl (Or.inr rfl)
  rw [e2]
  have e3 : rowTimeAt 2000 mar = 1 / 6 := by
    simp only [rowTimeAt, mar]
    norm_num
  have h4 : met3.lines.length ≤ 4 := by decide
  have h2 : 2 ≤ met3.lines.length := by decide
  rw [loopBody, readNextLine_met_end indet _ rfl h4, getline_header h2]
  simp only [fresh, e3]
  rfl

/-- C3: hold-previous lookup.  For every meteorology file (a header followed
by the records `recs`, with or without a newline after the last one) whose
record times are strictly increasing, read by a freshly constructed `Climate`,
and every query time `t` different from `t_now` with
`rowTime first ≤ t < rowTime last`: `updateClimate(t)` after `init` returns, and
in the state it leaves `clim` has the `tc`, `vpd`, `ppfd` and `swp` of the
latest record whose time is at most `t`, and `t_prev ≤ t < t_next`. -/
theorem updateClimate_hold_previous (indet : Row) (f g : CsvFile) (c0 : Climate) (hdr : Row)
    (recs : List Row) (rF rL : Row) (t : ℚ)
    (hm : c0.fin_met.file = none) (hc : c0.fin_co2.file = none) (hb : c0.t_base = 2000)
    (hl : f.lines = hdr :: recs)
    (hsorted : recs.Pairwise (fun a b => rowTime a < rowTime b))
    (hF : recs.head? = some rF) (hL : recs.getLast? = some rL)
    (hne : t ≠ (init indet (some f) (some g) c0).2.t_now)
    (h1 : rowTime rF ≤ t) (h2 : t < rowTime rL) :
    ∃ fuel s r, updateClimate indet fuel t (init indet (some f) (some g) c0).2 = some s ∧
      r ∈ recs ∧ rowTime r ≤ t ∧ (∀ r' ∈ recs, rowTime r' ≤ t → rowTime r' ≤ rowTime r) ∧
      s.clim.tc = r.tc ∧ s.clim.vpd = r.vpd ∧ s.clim.ppfd = r.ppfd ∧ s.clim.swp = r.swp ∧
      s.t_prev ≤ t ∧ t < s.t_next := by
  match recs, hF, hL with
  | [], hF, _ => simp at hF
  | [r0], hF, hL =>
    simp only [List.head?_cons, Option.some.injEq, List.getLast?_singleton] at hF hL
    rw [← hF] at h1
    rw [← hL] at h2
    exact absurd (lt_of_le_of_lt h1 h2) (lt_irrefl _)
  | r0 :: r1 :: rest, hF, hL =>
    simp only [List.head?_cons, Option.some.injEq] at hF
    rw [List.getLast?_cons_cons, getLast?_eq_lastRow, Option.some.injEq] at hL
    rw [← hF] at h1
    rw [← hL] at h2
    obtain ⟨fuel, s, r, e1, e2, e3, e4, e5, e6, e7⟩ :=
      advance_from_init indet f g c0 hdr r0 r1 rest t hm hc hb hl hsorted h1 h2
    refine ⟨fuel, _, r, updateClimate_of_advance indet hne e1, e2, e3, e4, ?_, ?_, ?_, ?_, e6, e7⟩
    all_goals simp only [e5, withRow]

theorem updateClimate_hold_previous_witness :
    [jan, feb, mar].Pairwise (fun a b => rowTime a < rowTime b) ∧
    rowTime jan ≤ 1 / 8 ∧ (1 / 8 : ℚ) < rowTime mar ∧
    ∃ fuel s r, updateClimate zero fuel (1 / 8) (init zero (some met3) (some co2) fresh).2
        = some s ∧
      r ∈ [jan, feb, mar] ∧ rowTime r ≤ 1 / 8 ∧
      (∀ r' ∈ [jan, feb, mar], rowTime r' ≤ 1 / 8 → rowTime r' ≤ rowTime r) ∧
      s.clim.tc = r.tc ∧ s.clim.vpd = r.vpd ∧ s.clim.ppfd = r.ppfd ∧ s.clim.swp = r.swp ∧
      s.t_prev ≤ 1 / 8 ∧ 1 / 8 < s.t_next := by
  have hs : [jan, feb, mar].Pairwise (fun a b => rowTime a < rowTime b) := by decide!
  have h1 : rowTime jan ≤ 1 / 8 := by decide!
  have h2 : (1 / 8 : ℚ) < rowTime mar := by decide!
  exact ⟨hs, h1, h2,
    updateClimate_hold_previous zero met3 co2 fresh header [jan, feb, mar] jan mar (1 / 8)
      rfl rfl rfl rfl hs rfl rfl (by decide!) h1 h2⟩

/-- C4: the code at the failing input, three monthly records and the query time
1/8.  `init` sets `t_now = t_prev = 0`; `updateClimate(1/8)` moves the cursor to
`t_prev = 1/12`, `t_next = 1/6` and has no assignment to `t_now`, which stays 0:
`t_prev ≤ t_now` does not hold, and `t_now` is not the time of the query that
`clim` serves. -/
theorem updateClimates_t_now_stale :
    (updateClimates zero 3 [1 / 8] (init zero (some met3) (some co2) fresh).2).map
        (fun s => (s.t_prev, s.t_now, s.t_next)) = some (1 / 12, 0, 1 / 6) ∧
    ¬ ((1 / 12 : ℚ) ≤ 0) := by
  decide!

/-- The cursor brackets the query times: in every state reached by a successful
`init` that leaves `t_now ≤ t_next`, followed by any sequence of `updateClimate`
calls that return, with non-decreasing query times that start at or after
`t_now`, the latest query time `t` (or `t_now`, before the first call) satisfies
`t_prev ≤ t ≤ t_next`.  The member `t_now` is not assigned by these calls. -/
theorem updateClimates_bracket_query (indet : Row) (met co2 : Option CsvFile) (c0 : Climate)
    (fuel : Nat) (ts : List ℚ) (s : Climate)
    (hi : (init indet met co2 c0).1 = 0)
    (h0 : (init indet met co2 c0).2.t_now ≤ (init indet met co2 c0).2.t_next)
    (hts : List.Chain (fun a b => a ≤ b) (init indet met co2 c0).2.t_now ts)
    (hrun : updateClimates indet fuel ts (init indet met co2 c0).2 = some s) :
    s.t_prev ≤ ts.getLast?.getD (init indet met co2 c0).2.t_now ∧
    ts.getLast?.getD (init indet met co2 c0).2.t_now ≤ s.t_next ∧
    s.t_now = (init indet met co2 c0).2.t_now := by
  have hpost := init_ok_post indet met co2 c0 hi
  obtain ⟨q0, q1, q2⟩ := updateClimates_bracket indet fuel ts _ _ s (le_refl _)
    (le_of_eq hpost.1) h0 hts hrun
  exact ⟨q1, q2, q0⟩

theorem updateClimates_bracket_query_witness :
    (init zero (some met3) (some Example.co2) fresh).1 = 0 ∧
    ∃ s, updateClimates zero 3 [1 / 24, 1 / 8, 1 / 8]
        (init zero (some met3) (some Example.co2) fresh).2 = some s ∧
      s.t_prev ≤ 1 / 8 ∧ 1 / 8 ≤ s.t_next ∧ s.t_now = 0 := by
  have hi : (init zero (some met3) (some Example.co2) fresh).1 = 0 := by decide!
  have h : (updateClimates zero 3 [1 / 24, 1 / 8, 1 / 8]
      (init zero (some met3) (some Example.co2) fresh).2).isSome = true := by decide!
  obtain ⟨s, hs⟩ := Option.isSome_iff_exists.mp h
  have h0 : (init zero (some met3) (some Example.co2) fresh).2.t_now = 0 := by decide!
  have := updateClimates_bracket_query zero (some met3) (some Example.co2) fresh 3
    [1 / 24, 1 / 8, 1 / 8] s hi (by decide!)
    (by rw [h0]; simp only [List.chain_cons, List.Chain.nil, and_true]; norm_num) hs
  rw [h0] at this
  exact ⟨hi, s, hs, this⟩

/-- C7: the code at the failing input, a file of two records without final
newline.  `init` reads the second record as the end of the input: it moves
`t_base` to the time 0 of the first record before converting the line, and
`t_next` becomes `2000 + 1/12`, not the time `1/12` of the second record. -/
theorem init_primes_fails :
    (init zero (some met2u) (some co2) fresh).1 = 0 ∧
    (init zero (some met2u) (some co2) fresh).2.t_next = 2000 + 1 / 12 ∧
    (init zero (some met2u) (some co2) fresh).2.t_base = 0 ∧
    rowTime feb = 1 / 12 := by
  decide!

/-- What `init` primes when the second record is not read as the end of the
input: for a freshly constructed `Climate` and every pair of openable files
whose meteorology file has a header and at least two records, and ends with a
newline or holds a third record, `init` returns 0, `t_prev` and `clim_prev` are
the time and the values of the first record, `t_next` and `clim_next` those of
the second, `t_now = t_prev` and `clim = clim_prev`. -/
theorem init_primes (indet : Row) (f g : CsvFile) (c0 : Climate) (hdr r0 r1 : Row)
    (rest : List Row)
    (hm : c0.fin_met.file = none) (hc : c0.fin_co2.file = none) (hb : c0.t_base = 2000)
    (hl : f.lines = hdr :: r0 :: r1 :: rest)
    (ht : f.lastLineTerminated = true ∨ rest ≠ []) :
    (init indet (some f) (some g) c0).1 = 0 ∧
    (init indet (some f) (some g) c0).2.t_prev = rowTime r0 ∧
    (init indet (some f) (some g) c0).2.clim_prev.tc = r0.tc ∧
    (init indet (some f) (some g) c0).2.clim_prev.vpd = r0.vpd ∧
    (init indet (some f) (some g) c0).2.clim_prev.ppfd = r0.ppfd ∧
    (init indet (some f) (some g) c0).2.clim_prev.swp = r0.swp ∧
    (init indet (some f) (some g) c0).2.t_next = rowTime r1 ∧
    (init indet (some f) (some g) c0).2.clim_next.tc = r1.tc ∧
    (init indet (some f) (some g) c0).2.clim_next.vpd = r1.vpd ∧
    (init indet (some f) (some g) c0).2.clim_next.ppfd = r1.ppfd ∧
    (init indet (some f) (some g) c0).2.clim_next.swp = r1.swp ∧
    (init indet (some f) (some g) c0).2.t_now = (init indet (some f) (some g) c0).2.t_prev ∧
    (init indet (some f) (some g) c0).2.clim = (init indet (some f) (some g) c0).2.clim_prev := by
  rw [init_two_records indet f g c0 hdr r0 r1 rest hm hc hl ht]
  simp only [hb, rowTimeAt_2000, withRow, and_self]

theorem init_primes_witness :
    met3.lines = header :: jan :: feb :: [mar] ∧
    (init zero (some met3) (some co2) fresh).2.t_prev = rowTime jan ∧
    (init zero (some met3) (some co2) fresh).2.t_next = rowTime feb ∧
    (init zero (some met3) (some co2) fresh).2.clim_next.tc = 20 := by
  have h := init_primes zero met3 co2 fresh header jan feb [mar] rfl rfl rfl rfl (Or.inl rfl)
  exact ⟨rfl, h.2.1, h.2.2.2.2.2.2.1, h.2.2.2.2.2.2.2.1⟩

/-- C8: on a `Climate` whose streams are not open yet, `init` returns a non-zero
code exactly when the meteorology file or the CO2 file cannot be opened; and
when it returns a non-zero code it has read nothing: the streams are as `open`
left them and `t_prev`, `t_next`, `t_now`, `t_base`, `clim`, `clim_prev` and
`clim_next` are unchanged. -/
theorem init_error_code (indet : Row) (met co2 : Option CsvFile) (c : Climate)
    (hm : c.fin_met.file = none) (hc : c.fin_co2.file = none) :
    ((init indet met co2 c).1 ≠ 0 ↔ met = none ∨ co2 = none) ∧
    ((init indet met co2 c).1 ≠ 0 →
      (init indet met co2 c).2 =
        { c with fin_met := c.fin_met.open met, fin_co2 := c.fin_co2.open co2 }) := by
  obtain ⟨tp, tn, cp, cn, tb, tnow, cl, ip, ⟨fm, pm, em, flm⟩, ⟨fc, pc, ec, flc⟩⟩ := c
  simp only at hm hc
  subst hm hc
  cases met <;> cases co2 <;> simp [init, IfStream.open, IfStream.fail]

theorem init_error_code_witness :
    ((init zero none (some co2) fresh).1 ≠ 0 ↔ (none : Option CsvFile) = none ∨ some co2 = none) ∧
    ((init zero none (some co2) fresh).1 ≠ 0 →
      (init zero none (some co2) fresh).2 =
        { fresh with fin_met := fresh.fin_met.open none,
                     fin_co2 := fresh.fin_co2.open (some co2) }) :=
  init_error_code zero none (some co2) fresh rfl rfl

/-- C9, as stated, fails: after `init` and `updateClimate(1/8)` on three monthly
records, the call `updateClimate(1/24)`, with a query time earlier than that of
the previous call and earlier than `t_prev = 1/12`, returns normally without
running the loop; the exposed state stays that of February, the record in force
at 1/8, although January is the record in force at 1/24. -/
theorem updateClimate_backwards_counterexample :
    ∃ s1, updateClimate zero 3 (1 / 8) (init zero (some met3) (some co2) fresh).2 = some s1 ∧
      s1.t_prev = 1 / 12 ∧
      updateClimate zero 0 (1 / 24) s1 = some s1 ∧ s1.clim = withRow {} feb := by
  have h : (updateClimate zero 3 (1 / 8) (init zero (some met3) (some co2) fresh).2).isSome
      = true := by decide!
  obtain ⟨s1, hs1⟩ := Option.isSome_iff_exists.mp h
  have h2 : ((updateClimate zero 3 (1 / 8) (init zero (some met3) (some co2) fresh).2).bind
      fun s => some (decide (s.t_prev = 1 / 12 ∧ updateClimate zero 0 (1 / 24) s = some s ∧
        s.clim = withRow {} feb))) = some true := by decide!
  rw [hs1] at h2
  simp only [Option.some_bind, Option.some.injEq, decide_eq_true_eq] at h2
  exact ⟨s1, hs1, h2⟩

/-- C9, amended: let a call `updateClimate(t')` have returned the state `s`,
and let the next call come with an earlier query time `t < t'`.  Nothing is
signalled.  Whenever `t'` is below `t_next` in `s`, the call returns normally
without running the loop, for any bound on the iterations: `t_prev`, `t_next`,
`clim_prev`, `clim_next`, `t_base`, `t_now` and the streams are unchanged, and
`clim` is `clim_prev` (or is left alone when `t` equals `t_now`).  That is the
case whenever the previous call did not return at once (`t'` different from
`t_now` before it), and then the whole state `s` is left as it is, `clim`
included: it stays the state served for `t'`.  (Nothing is said of an earlier
query after a call that returned at once with `t_next ≤ t'`.) -/
theorem updateClimate_backwards (indet : Row) (fuel fuel2 : Nat) (t' t : ℚ) (c s : Climate)
    (hprev : updateClimate indet fuel t' c = some s) (hlt : t < t') :
    (t' < s.t_next →
      updateClimate indet fuel2 t s =
        some { s with clim := if t = s.t_now then s.clim else s.clim_prev }) ∧
    (t' ≠ c.t_now → t' < s.t_next ∧ updateClimate indet fuel2 t s = some s) := by
  constructor
  · intro h
    have h2 : t < s.t_next := lt_trans hlt h
    by_cases e : t = s.t_now
    · simp [updateClimate_eq, e]
    · rw [updateClimate_of_advance indet e (advance_stop indet fuel2 t s h2)]
      simp [e]
  · intro hne
    obtain ⟨s1, ha, rfl⟩ := updateClimate_inv indet hne hprev
    obtain ⟨p1, _, _, _⟩ := advance_post indet t' fuel c s1 ha
    refine ⟨p1, ?_⟩
    by_cases e : t = ({ s1 with clim := s1.clim_prev } : Climate).t_now
    · rw [e]
      exact updateClimate_now indet fuel2 _
    · rw [updateClimate_of_advance indet e
        (advance_stop indet fuel2 t { s1 with clim := s1.clim_prev } (lt_trans hlt p1))]

theorem updateClimate_backwards_witness :
    (1 / 24 : ℚ) < 1 / 8 ∧
    ∃ s, updateClimate zero 3 (1 / 8) (init zero (some met3) (some co2) fresh).2 = some s ∧
      (1 / 8 : ℚ) < s.t_next ∧ updateClimate zero 0 (1 / 24) s = some s := by
  have hlt : (1 / 24 : ℚ) < 1 / 8 := by norm_num
  have h : (updateClimate zero 3 (1 / 8) (init zero (some met3) (some co2) fresh).2).isSome
      = true := by decide!
  obtain ⟨s, hs⟩ := Option.isSome_iff_exists.mp h
  have hne : (1 / 8 : ℚ) ≠ (init zero (some met3) (some co2) fresh).2.t_now := by decide!
  exact ⟨hlt, s, hs,
    (updateClimate_backwards zero 3 0 (1 / 8) (1 / 24) _ s hs hlt).2 hne⟩

/-- C11, as stated, fails: with `interpolate = true`, after `init` on three
monthly records the call `updateClimate(1/24)` has `t_prev = 0 < 1/24 < 1/12 =
t_next` and leaves `clim.tc = 10`, the value of January, whereas the linear
interpolation between January (10) and February (20) is 15. -/
theorem updateClimate_interpolate_counterexample :
    (updateClimate zero 0 (1 / 24) (init zero (some met3) (some co2) freshInterp).2).map
        (fun s => (s.interpolate, s.t_prev, s.t_next, s.clim.tc,
          (linearInterp (1 / 24) s.t_prev s.t_next s.clim_prev s.clim_next).tc)) =
      some (true, 0, 1 / 12, 10, 15) := by
  decide!

/-- C11, amended: whatever the value `b` of `interpolate`, in particular with
`interpolate = true`, `updateClimate(t)` for `t` below `t_next` (so for
`t_prev < t < t_next`) and different from `t_now` returns a state in which
`clim` is `clim_prev`: each of `tc`, `vpd`, `ppfd`, `swp` has the value of the
earlier bracketing record.  Nothing else changes; no operation reads
`interpolate`. -/
theorem updateClimate_interpolate_flag (indet : Row) (fuel : Nat) (t : ℚ) (c : Climate)
    (b : Bool) (h2 : t < c.t_next) (hne : t ≠ c.t_now) :
    updateClimate indet fuel t { c with interpolate := b } =
      some { c with interpolate := b, clim := c.clim_prev } := by
  have hne2 : t ≠ ({ c with interpolate := b } : Climate).t_now := hne
  rw [updateClimate_of_advance indet hne2
    (advance_stop indet fuel t { c with interpolate := b } h2)]

theorem updateClimate_interpolate_flag_witness :
    (1 / 24 : ℚ) < 1 / 12 ∧ (1 / 24 : ℚ) ≠ 1 ∧
    updateClimate zero 0 (1 / 24)
        { ({ fresh with t_prev := 0, t_next := 1 / 12, t_now := 1, clim_prev := withRow {} jan,
                        clim_next := withRow {} feb } : Climate) with interpolate := true } =
      some { ({ fresh with t_prev := 0, t_next := 1 / 12, t_now := 1,
                           clim_prev := withRow {} jan, clim_next := withRow {} feb } : Climate)
             with interpolate := true, clim := withRow {} jan } :=
  ⟨by norm_num, by norm_num,
    updateClimate_interpolate_flag zero 0 (1 / 24)
      { fresh with t_prev := 0, t_next := 1 / 12, t_now := 1, clim_prev := withRow {} jan,
                   clim_next := withRow {} feb }
      true (by show (1 / 24 : ℚ) < 1 / 12; norm_num) (by show (1 / 24 : ℚ) ≠ 1; norm_num)⟩

/-- C12: a repeated query is idempotent.  From every state (in particular
every state reached after a successful `init`), whenever `updateClimate(t)`
returns a state, a second `updateClimate(t)` returns without running the loop,
for any bound on the iterations, and leaves exactly that state: all members,
`t_now`, `t_base` and the two streams included. -/
theorem updateClimate_idempotent (indet : Row) (fuel fuel2 : Nat) (t : ℚ) (c s : Climate)
    (h : updateClimate indet fuel t c = some s) :
    updateClimate indet fuel2 t s = some s := by
  by_cases e : t = c.t_now
  · rw [e, updateClimate_now] at h
    have hs : s = c := (Option.some.inj h).symm
    rw [hs, e]
    exact updateClimate_now indet fuel2 c
  · obtain ⟨s1, ha, rfl⟩ := updateClimate_inv indet e h
    obtain ⟨p1, p2, _, _⟩ := advance_post indet t fuel c s1 ha
    have e2 : t ≠ ({ s1 with clim := s1.clim_prev } : Climate).t_now := by
      simpa [p2] using e
    rw [updateClimate_of_advance indet e2
      (advance_stop indet fuel2 t { s1 with clim := s1.clim_prev } p1)]

theorem updateClimate_idempotent_witness :
    ∃ s, updateClimate zero 5 (1 / 4) (init zero (some met3) (some co2) fresh).2 = some s ∧
      updateClimate zero 0 (1 / 4) s = some s := by
  have h : (updateClimate zero 5 (1 / 4) (init zero (some met3) (some co2) fresh).2).isSome
      = true := by decide!
  obtain ⟨s, hs⟩ := Option.isSome_iff_exists.mp h
  exact ⟨s, hs, updateClimate_idempotent zero 5 0 (1 / 4) _ s hs⟩

/-! ## The CO2 side of `Climate` -/

theorem readNextLine_met_clim_next_co2 (indet : Row) (c : Climate) :
    (readNextLine_met indet c).clim_next.co2 = c.clim_next.co2 := by
  by_cases h : (IfStream.getline c.fin_met).1.eof = true <;> simp [readNextLine_met, h]

theorem readNextLine_met_fin_co2 (indet : Row) (c : Climate) :
    (readNextLine_met indet c).fin_co2 = c.fin_co2 := by
  by_cases h : (IfStream.getline c.fin_met).1.eof = true <;> simp [readNextLine_met, h]

theorem open_pos_le (s : IfStream) (target : Option CsvFile) (h : s.pos ≤ 1) :
    (s.open target).pos ≤ 1 := by
  obtain ⟨fl, p, e, b⟩ := s
  cases fl <;> cases target <;> simp [IfStream.open] <;> exact h

theorem open_getline_pos_le (s : IfStream) (target : Option CsvFile)
    (h : ¬ (s.open target).fail = true) : ((s.open target).getline.1).pos ≤ 1 := by
  obtain ⟨fl, p, e, b⟩ := s
  cases fl <;> cases target <;> simp [IfStream.open, IfStream.fail] at h ⊢
  rename_i f
  simp only [IfStream.getline, Bool.or_self, Bool.false_eq_true, if_false]
  split <;> simp

theorem loopBody_co2Kept (indet : Row) (v : ℚ) (c : Climate) (h : co2Kept v c) :
    co2Kept v (loopBody indet c) := by
  obtain ⟨h1, _, h3, h4⟩ := h
  refine ⟨?_, ?_, ?_, ?_⟩
  · rw [loopBody, readNextLine_met_clim_eq]
    exact h1
  · rw [loopBody, readNextLine_met_clim_prev]
    exact h3
  · rw [loopBody, readNextLine_met_clim_next_co2]
    exact h3
  · rw [loopBody, readNextLine_met_fin_co2]
    exact h4

theorem advance_co2Kept (indet : Row) (v : ℚ) (t : ℚ) :
    ∀ (fuel : Nat) (c s : Climate), advance indet fuel t c = some s → co2Kept v c →
      co2Kept v s := by
  intro fuel
  induction fuel with
  | zero =>
    intro c s h hk
    by_cases ht : c.t_next ≤ t
    · simp [advance_zero, ht] at h
    · rw [advance_stop indet _ t c (not_le.mp ht)] at h
      rw [← Option.some.inj h]
      exact hk
  | succ n ih =>
    intro c s h hk
    by_cases ht : c.t_next ≤ t
    · rw [advance_step indet _ t c ht] at h
      exact ih _ _ h (loopBody_co2Kept indet v c hk)
    · rw [advance_stop indet _ t c (not_le.mp ht)] at h
      rw [← Option.some.inj h]
      exact hk

theorem updateClimate_co2Kept (indet : Row) (v : ℚ) (fuel : Nat) (t : ℚ) (c s : Climate)
    (h : updateClimate indet fuel t c = some s) (hk : co2Kept v c) : co2Kept v s := by
  by_cases e : t = c.t_now
  · rw [e, updateClimate_now] at h
    rw [← Option.some.inj h]
    exact hk
  · obtain ⟨s1, ha, rfl⟩ := updateClimate_inv indet e h
    obtain ⟨_, k2, k3, k4⟩ := advance_co2Kept indet v t fuel c s1 ha hk
    exact ⟨k2, k2, k3, k4⟩

theorem init_co2Kept (indet : Row) (v : ℚ) (met co2 : Option CsvFile) (c : Climate)
    (hk : co2Kept v c) : co2Kept v (init indet met co2 c).2 := by
  obtain ⟨h1, h2, h3, h4⟩ := hk
  by_cases f1 : (c.fin_met.open met).fail = true
  · simp only [init, f1, if_true]
    exact ⟨h1, h2, h3, open_pos_le _ _ h4⟩
  · by_cases f2 : (c.fin_co2.open co2).fail = true
    · simp only [init, f1, f2, if_true, if_false]
      exact ⟨h1, h2, h3, open_pos_le _ _ h4⟩
    · simp only [init, f1, f2, if_false, co2Kept, readNextLine_met_clim_eq,
        readNextLine_met_clim_prev, readNextLine_met_clim_next_co2, readNextLine_met_fin_co2,
        Bool.false_eq_true]
      exact ⟨h3, h3, h3, open_getline_pos_le _ _ f2⟩

theorem calls_co2Kept (indet : Row) (v : ℚ) (fuel : Nat) :
    ∀ (ks : List Call) (c s : Climate), calls indet fuel ks c = some s → co2Kept v c →
      co2Kept v s := by
  intro ks
  induction ks with
  | nil =>
    intro c s h hk
    simp only [calls, Option.some.injEq] at h
    rw [← h]
    exact hk
  | cons k ks ih =>
    intro c s h hk
    simp only [calls, Option.bind_eq_some] at h
    obtain ⟨s1, hs1, hrest⟩ := h
    refine ih s1 s hrest ?_
    cases k with
    | init met co2 =>
      simp only [call, Option.some.injEq] at hs1
      rw [← hs1]
      exact init_co2Kept indet v met co2 c hk
    | updateClimate t =>
      exact updateClimate_co2Kept indet v fuel t c s1 hs1 hk

theorem iterate_loopBody_co2Kept (indet : Row) (v : ℚ) (c : Climate) (hk : co2Kept v c) :
    ∀ n : Nat, co2Kept v ((loopBody indet)^[n] c) := by
  intro n
  induction n with
  | zero => exact hk
  | succ n ih =>
    rw [Function.iterate_succ_apply']
    exact loopBody_co2Kept indet v _ ih

theorem iterate_loopBody_fin_co2 (indet : Row) (c : Climate) :
    ∀ n : Nat, ((loopBody indet)^[n] c).fin_co2 = c.fin_co2 := by
  intro n
  induction n with
  | zero => rfl
  | succ n ih =>
    rw [Function.iterate_succ_apply', loopBody, readNextLine_met_fin_co2]
    exact ih

/-- C14: starting from a `Climate` as constructed (the member `co2` of `clim`,
`clim_prev` and `clim_next` has one value `v`, 400 by default, and the CO2
stream is not open), after every sequence of `init` and `updateClimate` calls
that return, `co2` still has the value `v` in the three objects and at most one
line of the CO2 file, its header, has been read.  The same holds after any
number of iterations of the loop of `updateClimate` from such a state, so also
inside a call that does not return. -/
theorem calls_keep_co2 (indet : Row) (fuel : Nat) (ks : List Call) (c s : Climate) (v : ℚ)
    (hc : c.clim.co2 = v) (hp : c.clim_prev.co2 = v) (hn : c.clim_next.co2 = v)
    (hs : c.fin_co2 = {}) (hrun : calls indet fuel ks c = some s) :
    (s.clim.co2 = v ∧ s.clim_prev.co2 = v ∧ s.clim_next.co2 = v ∧ s.fin_co2.pos ≤ 1) ∧
    ∀ n : Nat,
      ((loopBody indet)^[n] s).clim.co2 = v ∧ ((loopBody indet)^[n] s).clim_prev.co2 = v ∧
      ((loopBody indet)^[n] s).clim_next.co2 = v ∧ ((loopBody indet)^[n] s).fin_co2 = s.fin_co2 := by
  have hk : co2Kept v c := ⟨hc, hp, hn, by rw [hs]; exact Nat.zero_le 1⟩
  have hks := calls_co2Kept indet v fuel ks c s hrun hk
  refine ⟨hks, ?_⟩
  intro n
  obtain ⟨a1, a2, a3, _⟩ := iterate_loopBody_co2Kept indet v s hks n
  exact ⟨a1, a2, a3, iterate_loopBody_fin_co2 indet s n⟩

theorem calls_keep_co2_witness :
    fresh.clim.co2 = 400 ∧ fresh.fin_co2 = {} ∧
    ∃ s, calls zero 5
        [Call.init (some met3) (some co2), Call.updateClimate (1 / 4), Call.init none none,
          Call.updateClimate (1 / 8)] fresh = some s ∧
      s.clim.co2 = 400 ∧ s.clim_prev.co2 = 400 ∧ s.clim_next.co2 = 400 ∧ s.fin_co2.pos ≤ 1 := by
  have h : (calls zero 5
      [Call.init (some met3) (some co2), Call.updateClimate (1 / 4), Call.init none none,
        Call.updateClimate (1 / 8)] fresh).isSome = true := by decide!
  obtain ⟨s, hs⟩ := Option.isSome_iff_exists.mp h
  exact ⟨rfl, rfl, s, hs,
    (calls_keep_co2 zero 5 _ fresh s 400 rfl rfl rfl rfl hs).1⟩

end env

/-! ## The patch-clearing branch of the driver -/

open Example

/-- C10: when the branch runs at loop time `t`, with `rand()` returning `r` in
`[0, RAND_MAX]`, the new clearing time is `t + 100 + 50*(2*(r/RAND_MAX) - 1)`;
it lies in `[t + 50, t + 150]`, and the branch does not run again at any loop
time before `t + 50`. -/
theorem clearPatch_next_time (RAND_MAX r : Nat) (t : ℚ) (st : ℚ × List Species)
    (hR : 0 < RAND_MAX) (hr : r ≤ RAND_MAX) (ht : t ≥ st.1) :
    (clearPatch RAND_MAX r t st).1 = t + 100 + 50 * (2 * ((r : ℚ) / (RAND_MAX : ℚ)) - 1) ∧
    t + 50 ≤ (clearPatch RAND_MAX r t st).1 ∧ (clearPatch RAND_MAX r t st).1 ≤ t + 150 ∧
    ∀ (t2 : ℚ) (r2 : Nat), t2 < t + 50 →
      clearPatch RAND_MAX r2 t2 (clearPatch RAND_MAX r t st) = clearPatch RAND_MAX r t st := by
  have hRq : (0 : ℚ) < (RAND_MAX : ℚ) := by exact_mod_cast hR
  have hrq : (r : ℚ) ≤ (RAND_MAX : ℚ) := by exact_mod_cast hr
  have h0 : (0 : ℚ) ≤ (r : ℚ) / (RAND_MAX : ℚ) := div_nonneg (Nat.cast_nonneg r) (le_of_lt hRq)
  have h1 : (r : ℚ) / (RAND_MAX : ℚ) ≤ 1 := (div_le_one hRq).mpr hrq
  have e : (clearPatch RAND_MAX r t st).1
      = t + 100 + 50 * (2 * ((r : ℚ) / (RAND_MAX : ℚ)) - 1) := by
    simp only [clearPatch, ht, if_true, nextClear]
    ring
  refine ⟨e, by rw [e]; linarith, by rw [e]; linarith, ?_⟩
  intro t2 r2 h2
  have : ¬ (t2 ≥ (clearPatch RAND_MAX r t st).1) := by
    rw [e]
    intro hc
    linarith
  conv_lhs => rw [clearPatch]
  simp only [this, if_false]

theorem clearPatch_next_time_witness :
    (0 : Nat) < 32767 ∧ (7 : Nat) ≤ 32767 ∧
    (1050 : ℚ) + 50 ≤ (clearPatch 32767 7 1050 (1050, [spp3])).1 ∧
    (clearPatch 32767 7 1050 (1050, [spp3])).1 ≤ 1050 + 150 := by
  have h := clearPatch_next_time 32767 7 1050 (1050, [spp3]) (by decide) (by decide) (le_refl _)
  exact ⟨by decide, by decide, h.2.1, h.2.2.1⟩

/-! ## `CWM::update` -/

theorem fillVec_prefix (n : Nat) (f : Nat → ℚ) :
    ∀ m, m ≤ n →
      (List.range m).foldl (fun v k => v.set k (f k)) (List.replicate n 0) =
        (List.range m).map f ++ List.replicate (n - m) 0 := by
  intro m
  induction m with
  | zero => intro _; simp
  | succ m ih =>
    intro hm
    rw [List.range_succ, List.foldl_append, ih (by omega), List.foldl_cons, List.foldl_nil,
      List.set_append_right _ _ (by simp), List.map_append, List.append_assoc]
    have e : n - m = (n - (m + 1)) + 1 := by omega
    rw [e, List.replicate_succ]
    simp

theorem fillVec_eq (n : Nat) (f : Nat → ℚ) : CWM.fillVec n f = (List.range n).map f := by
  rw [CWM.fillVec, fillVec_prefix n f n (le_refl _)]
  simp

theorem accumulate_eq (v : List ℚ) : CWM.accumulate v = v.sum := by
  rw [CWM.accumulate, List.sum_eq_foldl]

theorem sumLoop_eq (n : Nat) (f : Nat → ℚ) : CWM.sumLoop n f = ((List.range n).map f).sum := by
  rw [CWM.sumLoop, List.sum_eq_foldl, List.foldl_map]

/-- C6: after `CWM::update(t, S)`, `n_ind` is the sum over the species `k` of
`integrate_x` of the constant 1, and each of the mean traits `hmat`, `lma`,
`wd`, `p50`, `gs` is the sum over the species `k` of `integrate_x` of the
cohorts' value of that trait, divided by `n_ind`.  Biomass does not occur. -/
theorem update_trait_means (M_PI : ℚ) (cw : CWM) (t : ℚ) (S : Solver) :
    (CWM.update M_PI cw t S).n_ind =
      ((List.range S.n_species).map fun k => S.integrate_x (fun _ _ => 1) t k).sum ∧
    (CWM.update M_PI cw t S).hmat =
      ((List.range S.n_species).map fun k =>
        S.integrate_x (fun i _ => (S.cohort k i).traits.hmat) t k).sum /
        (CWM.update M_PI cw t S).n_ind ∧
    (CWM.update M_PI cw t S).lma =
      ((List.range S.n_species).map fun k =>
        S.integrate_x (fun i _ => (S.cohort k i).traits.lma) t k).sum /
        (CWM.update M_PI cw t S).n_ind ∧
    (CWM.update M_PI cw t S).wd =
      ((List.range S.n_species).map fun k =>
        S.integrate_x (fun i _ => (S.cohort k i).traits.wood_density) t k).sum /
        (CWM.update M_PI cw t S).n_ind ∧
    (CWM.update M_PI cw t S).p50 =
      ((List.range S.n_species).map fun k =>
        S.integrate_x (fun i _ => (S.cohort k i).traits.p50_xylem) t k).sum /
        (CWM.update M_PI cw t S).n_ind ∧
    (CWM.update M_PI cw t S).gs =
      ((List.range S.n_species).map fun k =>
        S.integrate_x (fun i _ => (S.cohort k i).res.gs_avg) t k).sum /
        (CWM.update M_PI cw t S).n_ind := by
  simp only [CWM.update, fillVec_eq, accumulate_eq, sumLoop_eq, and_self]

/-- C13: `update` leaves the member `height` as it was, whatever the cohorts
are: it fills `height_vec`, the mean height of each species, and has no
assignment to `height`, unlike `n_ind`, `biomass`, `ba` and `canopy_area`, which
are assigned from their vectors.  At the failing input, one species with two
cohorts of height 4 and 8 and unit weights, the community mean height is 6 and
`height_vec` is `[6]`, while `height` is 7 after the call when it held 7 before,
and 0 when it held 0. -/
theorem update_height_unassigned :
    (∀ (M_PI : ℚ) (cw : CWM) (t : ℚ) (S : Solver), (CWM.update M_PI cw t S).height = cw.height) ∧
    CWM.communityMeanHeight 1000 solver2 = 6 ∧
    (CWM.update 3 cwm7 1000 solver2).height_vec = [6] ∧
    (CWM.update 3 cwm7 1000 solver2).n_ind = 2 ∧
    (CWM.update 3 cwm7 1000 solver2).height = 7 ∧
    (CWM.update 3 cwm0 1000 solver2).height = 0 := by
  refine ⟨fun _ _ _ _ => rfl, ?_, ?_, ?_, ?_, ?_⟩ <;> decide!
